import Mathlib

/-!
# Verification of the apt-ostree layout-transformation core

A shallow embedding of `src/apt_ostree/bootstrap.py` (the `Bootstrap`
class): the symlink sanitizer, the boot-artifact relocator, the
tmpfiles generator, the top-level symlink builder, and the stage order
of `create_ostree`.

Modelling conventions:
* Filesystem paths are lists of name components, relative to the tree
  root (`rootdir`).  A filesystem is a flat association list from a
  path to the node stored there (`file`, `dir`, or `symlink`); the
  directory structure is implicit in the paths.
* File metadata is reduced to the permission bits and the owner id,
  the two attributes the spec talks about.
* Symlink targets are kept as the raw string the link stores
  (`os.readlink`); they are parsed into components where the source
  parses or joins them.
* `stat`-style resolution (`os.path.isfile` / `os.path.isdir` and the
  walk's directory test) is modelled as syntactic normalisation of the
  path (`..` popping, as `os.path` normalisation does) followed by a
  single lookup; chains of symlinks met during resolution are not
  followed further.
-/

/-- `s.startswith(pre)` as a structural operation on the character
data (Python `str.startswith`, `os.path.isabs` via a leading `/`). -/
def strStartsWith (s pre : String) : Bool :=
  pre.data.isPrefixOf s.data

/-- Split a character list on a separator character (Python
`str.split(sep)` for a one-character separator). -/
def splitChars (sep : Char) : List Char → List (List Char)
  | [] => [[]]
  | c :: cs =>
    match splitChars sep cs with
    | [] => [[]]
    | g :: gs => if c = sep then [] :: g :: gs else (c :: g) :: gs

/-- Python `s.split(sep)` for a one-character separator. -/
def strSplitOn (sep : Char) (s : String) : List String :=
  (splitChars sep s.data).map (fun l => ⟨l⟩)

/-- The characters after the first occurrence of `sep`, if any:
Python `s.split(sep, 1)[1]`, `none` when `sep` does not occur (where
the source's two-name unpacking raises `ValueError`). -/
def afterFirstSep (sep : Char) : List Char → Option (List Char)
  | [] => none
  | c :: cs => if c = sep then some cs else afterFirstSep sep cs

/-- A filesystem node.  `perm`/`owner` are the permission bits and the
owning uid; a `symlink` stores its raw target string. -/
inductive Node where
  | file (perm owner : Nat)
  | dir (perm owner : Nat)
  | symlink (target : String)
deriving DecidableEq, Repr

/-- A path relative to the tree root, as a list of components. -/
abbrev FsPath := List String

/-- A filesystem: a flat association list from root-relative paths to
nodes. -/
abbrev FS := List (FsPath × Node)

/-- The node stored at `p`, if any (`os.lstat`-like: the entry itself,
no following). -/
def lookupFS (fs : FS) (p : FsPath) : Option Node :=
  List.lookup p fs

/-- Remove the entry at exactly `p` (`os.remove` / `os.unlink`). -/
def removeFS (fs : FS) (p : FsPath) : FS :=
  fs.filter (fun e => ¬ e.1 = p)

/-- Store node `n` at path `p`, replacing any previous entry. -/
def setFS (fs : FS) (p : FsPath) (n : Node) : FS :=
  (p, n) :: removeFS fs p

/-- `os.path.normpath` on a component list: drop `.` and empty
components, let `..` pop the previous component; `..` that escapes the
given components is kept (it escapes the tree root). -/
def normPath (comps : List String) : List String :=
  comps.foldl
    (fun acc c =>
      if c = "." ∨ c = "" then acc
      else if c = ".." then
        match acc.getLast? with
        | some l => if l = ".." then acc ++ [".."] else acc.dropLast
        | none => acc ++ [".."]
      else acc ++ [c])
    []

/-- Whether a raw symlink target string is absolute
(`os.path.isabs`). -/
def linkIsAbs (t : String) : Bool :=
  strStartsWith t "/"

/-- Split a raw symlink target into components; empty components
(leading or duplicate separators) are dropped, as every consumer of
the string (`os.path.commonpath`, `normpath`) drops them. -/
def linkComps (t : String) : List String :=
  (strSplitOn '/' t).filter (fun c => ¬ c = "")

/-- The unnormalised target path the source computes
(`os.path.join(rootdir, link[1:])` for absolute links,
`os.path.join(base, link)` for relative ones), root-relative. -/
def literalTarget (base : FsPath) (t : String) : FsPath :=
  if linkIsAbs t then linkComps t else base ++ linkComps t

/-- `Bootstrap.get_toplevel` applied to
`os.path.relpath(target, rootdir)`: the first component of the
normalised root-relative path (`.` when the path is the root
itself). -/
def getToplevel (rel : FsPath) : String :=
  rel.headD "."

/-- Resolve a path by syntactic normalisation, then look it up. -/
def resolvedLookup (fs : FS) (p : FsPath) : Option Node :=
  lookupFS fs (normPath p)

/-- Whether an optional node is a regular file. -/
def nodeIsFile : Option Node → Bool
  | some (.file _ _) => true
  | _ => false

/-- Whether an optional node is a directory. -/
def nodeIsDir : Option Node → Bool
  | some (.dir _ _) => true
  | _ => false

/-- `os.path.isfile` over the model: the normalised path holds a
regular file. -/
def isFileAt (fs : FS) (p : FsPath) : Bool :=
  nodeIsFile (resolvedLookup fs p)

/-- `os.path.isdir` over the model: the normalised path holds a
directory. -/
def isDirAt (fs : FS) (p : FsPath) : Bool :=
  nodeIsDir (resolvedLookup fs p)

/-- `copyNode own n`: the node `shutil.copytree` (with
`symlinks=True`, file copies via `copy2`) creates from `n`: permission
bits are preserved (`copystat`/`copy2`), symlinks are recreated
verbatim, but every created entry is owned by the uid `own` of the
running process — `copy2` does not transfer ownership. -/
def copyNode (own : Nat) : Node → Node
  | .file perm _ => .file perm own
  | .dir perm _ => .dir perm own
  | .symlink t => .symlink t

/-- The per-entry transform of `shutil.copytree(src, dst,
symlinks=True)` over the flat model: an entry at or below `src` is
re-rooted at `dst` and transformed by `copyNode`; any other entry
contributes nothing. -/
def copyEntry (own : Nat) (src dst : FsPath) (e : FsPath × Node) :
    Option (FsPath × Node) :=
  if src.isPrefixOf e.1 then
    some (dst ++ e.1.drop src.length, copyNode own e.2)
  else none

/-- `shutil.copytree(src, dst, symlinks=True)` over the flat model:
every entry at or below `src` is re-rooted at `dst`, transformed by
`copyNode`. -/
def copyTreeFS (own : Nat) (fs : FS) (src dst : FsPath) : FS :=
  fs ++ fs.filterMap (copyEntry own src dst)

/-! ## SymlinkSanitizer — `Bootstrap.sanitize_usr_symlinks`
(bootstrap.py lines 245–282) -/

/-- The materialisation step of the loop body (source lines 273–282,
after `os.remove`): `os.link(target, p)` when the resolved target is a
regular file — the hard link shares the target's inode, so the entry
carries the same permission bits and owner; `shutil.copytree(target,
p, symlinks=True)` when it is a directory; nothing otherwise. -/
def materialize (uid : Nat) (fs1 : FS) (p literal : FsPath) : FS :=
  match resolvedLookup fs1 literal with
  | some (.file perm owner) => setFS fs1 p (.file perm owner)
  | some (.dir _ _) => copyTreeFS uid fs1 (normPath literal) p
  | _ => fs1

/-- The classification-and-action part of the loop body, once the
entry is known to be a symlink with raw target `t`: the
`os.path.commonpath([target, usrdir]) == usrdir` keep test on the
*unnormalised* joined target (equivalent to the `usr` components being
a literal prefix of it), then the `get_toplevel(relpath) == "var"`
test, then `os.remove` followed by `materialize`. -/
def processLink (uid : Nat) (fs : FS) (base : FsPath) (name t : String) : FS :=
  if (["usr"] : FsPath).isPrefixOf (literalTarget base t) then fs
  else if ¬ getToplevel (normPath (literalTarget base t)) = "var" then fs
  else
    materialize uid (removeFS fs (base ++ [name])) (base ++ [name])
      (literalTarget base t)

/-- The loop body of `sanitize_usr_symlinks` for the walk entry `name`
in directory `base` (source lines 249–282), acting on the current
filesystem: `os.path.islink`, then `processLink`. -/
def processOne (uid : Nat) (fs : FS) (base : FsPath) (name : String) : FS :=
  match lookupFS fs (base ++ [name]) with
  | some (.symlink t) => processLink uid fs base name t
  | _ => fs

/-- The direct children of `base`: entries whose path is `base` plus
one component (`os.scandir` order = list order). -/
def childrenFS (fs : FS) (base : FsPath) : List (String × Node) :=
  fs.filterMap
    (fun e =>
      if base.isPrefixOf e.1 then
        match e.1.drop base.length with
        | [n] => some (n, e.2)
        | _ => none
      else none)

/-- `os.walk`'s directory test for an entry (`entry.is_dir()`, which
follows symlinks).  The stat runs on the *process* filesystem: a
relative target resolves against the link's directory, which lies
inside the tree, so it is looked up in the tree; an absolute target
resolves against the process root — the build host, on which the
tree's content is not mounted — modelled by the oracle `host`, which
answers whether the raw absolute target names a directory there. -/
def walkIsDir (host : String → Bool) (fs : FS) (base : FsPath) (nd : Node) :
    Bool :=
  match nd with
  | .dir _ _ => true
  | .file _ _ => false
  | .symlink t =>
    if linkIsAbs t then host t
    else nodeIsDir (resolvedLookup fs (literalTarget base t))

/-- The file-position entries of a top-down `os.walk(base)` (with
`followlinks=False`): for each visited directory, first its entries
that `walkIsDir` does not classify as directories (regular files and
symlinks whose `entry.is_dir()` stat answers no), in listing order,
then the recursion into its real subdirectories — entries classified
as directories are listed as dirs but never descended into.
Listings are taken from `fs`; the sanitizer's loop only mutates
entries at already-listed file positions (and creates trees at such
positions, which a lazy walk never descends into, since they are not
in any captured dirs list), so the eager walk sees exactly the entries
the source's lazy walk sees.  `fuel` bounds the recursion depth. -/
def walkFiles (host : String → Bool) (fs : FS) :
    Nat → FsPath → List (FsPath × String)
  | 0, _ => []
  | fuel + 1, base =>
    (childrenFS fs base).filterMap
      (fun en =>
        if walkIsDir host fs base en.2 then none else some (base, en.1))
    ++ ((childrenFS fs base).filterMap
          (fun en => match en.2 with
            | .dir _ _ => some en.1
            | _ => none)).foldr
         (fun d acc => walkFiles host fs fuel (base ++ [d]) ++ acc) []

/-- A recursion-depth bound for the walk: longer than every stored
path. -/
def maxDepthFS (fs : FS) : Nat :=
  (fs.map (fun e => e.1.length)).foldr max 0 + 1

/-- The sanitizer's loop: the loop body on each file-position walk
entry in order, threading the filesystem. -/
def sanitizeFold (uid : Nat) (l : List (FsPath × String)) (fs : FS) : FS :=
  l.foldl (fun acc e => processOne uid acc e.1 e.2) fs

/-- `Bootstrap.sanitize_usr_symlinks(rootdir)`: walk the `usr` subtree
and run the loop body on every file-position entry.  `host` is the
process-root directory oracle of `walkIsDir`. -/
def sanitizeUsrSymlinks (uid : Nat) (host : String → Bool) (fs : FS) : FS :=
  sanitizeFold uid (walkFiles host fs (maxDepthFS fs) ["usr"]) fs

/-- A process root on which no stat'ed absolute target names a
directory: the build host does not contain the tree's content. -/
def emptyHost : String → Bool := fun _ => false

/-! ## Lookup lemmas for the flat filesystem -/

theorem lookupFS_cons_self (fs : FS) (p : FsPath) (n : Node) :
    lookupFS ((p, n) :: fs) p = some n := by
  simp [lookupFS, List.lookup]

theorem lookupFS_cons_ne (fs : FS) (p q : FsPath) (n : Node) (h : ¬ q = p) :
    lookupFS ((p, n) :: fs) q = lookupFS fs q := by
  simp only [lookupFS, List.lookup]
  rw [beq_false_of_ne h]

theorem lookupFS_filter_keep (fs : FS) (f : FsPath × Node → Bool) (q : FsPath)
    (hq : ∀ n, f (q, n) = true) :
    lookupFS (fs.filter f) q = lookupFS fs q := by
  induction fs with
  | nil => rfl
  | cons e fs ih =>
    obtain ⟨k, v⟩ := e
    by_cases hk : k = q
    · subst hk
      rw [List.filter_cons, if_pos (hq v), lookupFS_cons_self,
        lookupFS_cons_self]
    · have hner : ¬ q = k := fun h => hk h.symm
      cases hf : f (k, v) with
      | true =>
        rw [List.filter_cons, if_pos hf,
          lookupFS_cons_ne (List.filter f fs) k q v hner,
          lookupFS_cons_ne fs k q v hner, ih]
      | false =>
        rw [List.filter_cons, if_neg (by rw [hf]; exact Bool.false_ne_true),
          lookupFS_cons_ne fs k q v hner, ih]

theorem lookupFS_filter_drop (fs : FS) (f : FsPath × Node → Bool) (q : FsPath)
    (hq : ∀ n, f (q, n) = false) :
    lookupFS (fs.filter f) q = none := by
  induction fs with
  | nil => rfl
  | cons e fs ih =>
    obtain ⟨k, v⟩ := e
    by_cases hk : k = q
    · subst hk
      rw [List.filter_cons, if_neg (by rw [hq v]; exact Bool.false_ne_true), ih]
    · have hner : ¬ q = k := fun h => hk h.symm
      cases hf : f (k, v) with
      | true =>
        rw [List.filter_cons, if_pos hf,
          lookupFS_cons_ne (List.filter f fs) k q v hner, ih]
      | false =>
        rw [List.filter_cons, if_neg (by rw [hf]; exact Bool.false_ne_true), ih]

theorem lookup_removeFS_self (fs : FS) (p : FsPath) :
    lookupFS (removeFS fs p) p = none := by
  apply lookupFS_filter_drop
  intro n
  simp

theorem lookup_removeFS_ne (fs : FS) (p q : FsPath) (h : ¬ q = p) :
    lookupFS (removeFS fs p) q = lookupFS fs q := by
  apply lookupFS_filter_keep
  intro n
  simpa using h

theorem lookup_setFS_self (fs : FS) (p : FsPath) (n : Node) :
    lookupFS (setFS fs p n) p = some n :=
  lookupFS_cons_self _ _ _

theorem lookup_setFS_ne (fs : FS) (p q : FsPath) (n : Node) (h : ¬ q = p) :
    lookupFS (setFS fs p n) q = lookupFS fs q := by
  rw [setFS, lookupFS_cons_ne _ _ _ _ h, lookup_removeFS_ne _ _ _ h]

theorem isPrefixOf_self (l : List String) : l.isPrefixOf l = true := by
  induction l with
  | nil => rfl
  | cons a l ih => simp [List.isPrefixOf, ih]
/-! ## Prefix, copy and locality lemmas for the sanitizer stage -/

theorem isPrefixOf_iff (a : List String) :
    ∀ b : List String, (a.isPrefixOf b = true ↔ ∃ s, b = a ++ s) := by
  induction a with
  | nil =>
    intro b
    constructor
    · intro _
      exact ⟨b, rfl⟩
    · intro _
      exact List.isPrefixOf_nil_left
  | cons x xs ih =>
    intro b
    cases b with
    | nil =>
      constructor
      · intro h
        exact Bool.noConfusion h
      · rintro ⟨s, hs⟩
        exact List.noConfusion hs
    | cons y ys =>
      simp only [List.isPrefixOf, Bool.and_eq_true, beq_iff_eq]
      constructor
      · rintro ⟨h1, h2⟩
        obtain ⟨s, hs⟩ := (ih ys).mp h2
        exact ⟨s, by rw [h1, hs, List.cons_append]⟩
      · rintro ⟨s, hs⟩
        injection hs with h1 h2
        exact ⟨h1.symm, (ih ys).mpr ⟨s, h2⟩⟩

theorem isPrefixOf_append_self (a s : List String) :
    a.isPrefixOf (a ++ s) = true :=
  (isPrefixOf_iff a (a ++ s)).mpr ⟨s, rfl⟩

theorem isPrefixOf_trans {a b c : List String}
    (h1 : a.isPrefixOf b = true) (h2 : b.isPrefixOf c = true) :
    a.isPrefixOf c = true := by
  obtain ⟨s1, hs1⟩ := (isPrefixOf_iff a b).mp h1
  obtain ⟨s2, hs2⟩ := (isPrefixOf_iff b c).mp h2
  refine (isPrefixOf_iff a c).mpr ⟨s1 ++ s2, ?_⟩
  rw [hs2, hs1, List.append_assoc]

theorem isPrefixOf_split {a p q : List String}
    (h : a.isPrefixOf (p ++ q) = true) :
    a.isPrefixOf p = true ∨ p.isPrefixOf a = true := by
  obtain ⟨s, hs⟩ := (isPrefixOf_iff a (p ++ q)).mp h
  rcases List.append_eq_append_iff.mp hs with ⟨m, hm, _⟩ | ⟨m, hm, _⟩
  · exact Or.inr ((isPrefixOf_iff p a).mpr ⟨m, hm⟩)
  · exact Or.inl ((isPrefixOf_iff a p).mpr ⟨m, hm⟩)

theorem not_prefixOf_append {a p : List String} (q : List String)
    (h1 : a.isPrefixOf p = false) (h2 : p.isPrefixOf a = false) :
    a.isPrefixOf (p ++ q) = false := by
  cases hb : a.isPrefixOf (p ++ q) with
  | false => rfl
  | true =>
    rcases isPrefixOf_split hb with hc | hc
    · rw [hc] at h1
      exact Bool.noConfusion h1
    · rw [hc] at h2
      exact Bool.noConfusion h2

theorem cons_ne_of_head {x y : String} {xs ys : List String} (hxy : ¬ x = y) :
    ¬ (x :: xs : List String) = y :: ys := by
  intro he
  injection he with h1 _
  exact hxy h1

theorem lookupFS_append_left (l₁ l₂ : FS) (q : FsPath) (nd : Node)
    (h : lookupFS l₁ q = some nd) :
    lookupFS (l₁ ++ l₂) q = some nd := by
  induction l₁ with
  | nil => exact Option.noConfusion h
  | cons e l₁ ih =>
    obtain ⟨k, v⟩ := e
    by_cases hk : q = k
    · subst hk
      rw [lookupFS_cons_self] at h
      rw [List.cons_append, lookupFS_cons_self]
      exact h
    · rw [lookupFS_cons_ne _ _ _ _ hk] at h
      rw [List.cons_append, lookupFS_cons_ne _ _ _ _ hk]
      exact ih h

theorem lookupFS_append_right (l₁ l₂ : FS) (q : FsPath)
    (h : lookupFS l₁ q = none) :
    lookupFS (l₁ ++ l₂) q = lookupFS l₂ q := by
  induction l₁ with
  | nil => rfl
  | cons e l₁ ih =>
    obtain ⟨k, v⟩ := e
    by_cases hk : q = k
    · subst hk
      rw [lookupFS_cons_self] at h
      exact Option.noConfusion h
    · rw [lookupFS_cons_ne _ _ _ _ hk] at h
      rw [List.cons_append, lookupFS_cons_ne _ _ _ _ hk]
      exact ih h

theorem lookupFS_some_mem (fs : FS) (q : FsPath) (nd : Node)
    (h : lookupFS fs q = some nd) : ∃ e, e ∈ fs ∧ e.1 = q := by
  induction fs with
  | nil => exact Option.noConfusion h
  | cons e fsr ih =>
    obtain ⟨k, v⟩ := e
    by_cases hk : q = k
    · exact ⟨(k, v), List.mem_cons_self _ _, hk.symm⟩
    · rw [lookupFS_cons_ne _ _ _ _ hk] at h
      obtain ⟨e2, he2, hk2⟩ := ih h
      exact ⟨e2, List.mem_cons_of_mem _ he2, hk2⟩

theorem lookup_copies_ne (own : Nat) (src dst q : FsPath)
    (h : dst.isPrefixOf q = false) (fs : FS) :
    lookupFS (fs.filterMap (copyEntry own src dst)) q = none := by
  induction fs with
  | nil => rfl
  | cons e fsr ih =>
    obtain ⟨k, v⟩ := e
    by_cases hp : src.isPrefixOf k = true
    · obtain ⟨s, rfl⟩ := (isPrefixOf_iff src k).mp hp
      have hce : copyEntry own src dst (src ++ s, v)
          = some (dst ++ s, copyNode own v) := by
        simp only [copyEntry]
        rw [if_pos hp, List.drop_left]
      rw [List.filterMap_cons_some hce]
      have hne : ¬ q = dst ++ s := by
        intro he
        rw [he, isPrefixOf_append_self] at h
        exact Bool.noConfusion h
      rw [lookupFS_cons_ne _ _ _ _ hne]
      exact ih
    · have hce : copyEntry own src dst (k, v) = none := by
        simp only [copyEntry]
        rw [if_neg hp]
      rw [List.filterMap_cons_none hce]
      exact ih

theorem lookup_copies_at (own : Nat) (src dst : FsPath) (fs : FS) :
    ∀ q : FsPath,
      lookupFS (fs.filterMap (copyEntry own src dst)) (dst ++ q)
        = (lookupFS fs (src ++ q)).map (copyNode own) := by
  induction fs with
  | nil =>
    intro q
    rfl
  | cons e fsr ih =>
    intro q
    obtain ⟨k, v⟩ := e
    by_cases hp : src.isPrefixOf k = true
    · obtain ⟨s, rfl⟩ := (isPrefixOf_iff src k).mp hp
      have hce : copyEntry own src dst (src ++ s, v)
          = some (dst ++ s, copyNode own v) := by
        simp only [copyEntry]
        rw [if_pos hp, List.drop_left]
      rw [List.filterMap_cons_some hce]
      by_cases hqs : q = s
      · subst hqs
        rw [lookupFS_cons_self, lookupFS_cons_self]
        rfl
      · have hne1 : ¬ dst ++ q = dst ++ s :=
          fun he => hqs (List.append_cancel_left he)
        have hne2 : ¬ src ++ q = src ++ s :=
          fun he => hqs (List.append_cancel_left he)
        rw [lookupFS_cons_ne _ _ _ _ hne1, lookupFS_cons_ne _ _ _ _ hne2]
        exact ih q
    · have hce : copyEntry own src dst (k, v) = none := by
        simp only [copyEntry]
        rw [if_neg hp]
      rw [List.filterMap_cons_none hce]
      have hne : ¬ src ++ q = k := by
        intro he
        rw [← he] at hp
        exact hp (isPrefixOf_append_self src q)
      rw [lookupFS_cons_ne _ _ _ _ hne]
      exact ih q

theorem lookup_copyTree_ne (own : Nat) (fs : FS) (src dst q : FsPath)
    (h : dst.isPrefixOf q = false) :
    lookupFS (copyTreeFS own fs src dst) q = lookupFS fs q := by
  unfold copyTreeFS
  cases hl : lookupFS fs q with
  | some nd => exact lookupFS_append_left fs _ q nd hl
  | none =>
    rw [lookupFS_append_right fs _ q hl]
    exact lookup_copies_ne own src dst q h fs

theorem lookup_copyTree_at (own : Nat) (fs : FS) (src dst : FsPath)
    (hclean : ∀ q, lookupFS fs (dst ++ q) = none) (q : FsPath) :
    lookupFS (copyTreeFS own fs src dst) (dst ++ q)
      = (lookupFS fs (src ++ q)).map (copyNode own) := by
  unfold copyTreeFS
  rw [lookupFS_append_right fs _ (dst ++ q) (hclean q)]
  exact lookup_copies_at own src dst fs q

/-- Locality of the loop body: a path that does not extend the entry's
own path keeps its stored node across one iteration. -/
theorem processOne_lookup_ne (uid : Nat) (fs : FS) (base : FsPath)
    (name : String) (q : FsPath)
    (h : (base ++ [name]).isPrefixOf q = false) :
    lookupFS (processOne uid fs base name) q = lookupFS fs q := by
  have hqp : ¬ q = base ++ [name] := by
    intro he
    rw [he, isPrefixOf_self] at h
    exact Bool.noConfusion h
  unfold processOne
  cases hl : lookupFS fs (base ++ [name]) with
  | none => rfl
  | some nd =>
    cases nd with
    | file perm owner => rfl
    | dir perm owner => rfl
    | symlink t =>
      show lookupFS (processLink uid fs base name t) q = lookupFS fs q
      unfold processLink
      by_cases h1 : (["usr"] : FsPath).isPrefixOf (literalTarget base t) = true
      · rw [if_pos h1]
      · rw [if_neg h1]
        by_cases h2 : getToplevel (normPath (literalTarget base t)) = "var"
        · rw [if_neg (fun hcon => hcon h2)]
          unfold materialize
          cases hres : resolvedLookup (removeFS fs (base ++ [name]))
              (literalTarget base t) with
          | none => exact lookup_removeFS_ne fs _ q hqp
          | some nd2 =>
            cases nd2 with
            | file perm owner =>
              rw [lookup_setFS_ne _ _ _ _ hqp]
              exact lookup_removeFS_ne fs _ q hqp
            | dir perm owner =>
              rw [lookup_copyTree_ne uid _ _ _ q h]
              exact lookup_removeFS_ne fs _ q hqp
            | symlink s => exact lookup_removeFS_ne fs _ q hqp
        · rw [if_pos h2]

theorem sanitizeFold_cons (uid : Nat) (b : FsPath) (n : String)
    (l : List (FsPath × String)) (fs : FS) :
    sanitizeFold uid ((b, n) :: l) fs
      = sanitizeFold uid l (processOne uid fs b n) := rfl

theorem sanitizeFold_append (uid : Nat) (l₁ l₂ : List (FsPath × String))
    (fs : FS) :
    sanitizeFold uid (l₁ ++ l₂) fs
      = sanitizeFold uid l₂ (sanitizeFold uid l₁ fs) := by
  unfold sanitizeFold
  rw [List.foldl_append]

/-- Locality of the whole loop: a path that extends no processed
entry's path keeps its stored node. -/
theorem sanitizeFold_lookup_ne (uid : Nat) (l : List (FsPath × String))
    (fs : FS) (q : FsPath)
    (h : ∀ e ∈ l, (e.1 ++ [e.2]).isPrefixOf q = false) :
    lookupFS (sanitizeFold uid l fs) q = lookupFS fs q := by
  induction l generalizing fs with
  | nil => rfl
  | cons e l ih =>
    obtain ⟨b, n⟩ := e
    rw [sanitizeFold_cons,
      ih (processOne uid fs b n) (fun e2 he2 => h e2 (List.mem_cons_of_mem _ he2))]
    exact processOne_lookup_ne uid fs b n q (h (b, n) (List.mem_cons_self _ _))

theorem walkFiles_zero (host : String → Bool) (fs : FS) (base : FsPath) :
    walkFiles host fs 0 base = [] := rfl

theorem walkFiles_succ (host : String → Bool) (fs : FS) (fuel : Nat)
    (base : FsPath) :
    walkFiles host fs (fuel + 1) base
      = (childrenFS fs base).filterMap
          (fun en =>
            if walkIsDir host fs base en.2 then none else some (base, en.1))
        ++ ((childrenFS fs base).filterMap
              (fun en => match en.2 with
                | .dir _ _ => some en.1
                | _ => none)).foldr
             (fun d acc => walkFiles host fs fuel (base ++ [d]) ++ acc) [] := rfl

theorem mem_foldr_append {α β : Type} (f : α → List β) (l : List α) (e : β)
    (h : e ∈ l.foldr (fun d acc => f d ++ acc) []) :
    ∃ d, d ∈ l ∧ e ∈ f d := by
  induction l with
  | nil =>
    rw [List.foldr_nil] at h
    cases h
  | cons d l ih =>
    rw [List.foldr_cons, List.mem_append] at h
    rcases h with h1 | h2
    · exact ⟨d, List.mem_cons_self _ _, h1⟩
    · obtain ⟨d2, hd2, he2⟩ := ih h2
      exact ⟨d2, List.mem_cons_of_mem _ hd2, he2⟩

/-- Geometry of the walk: every file-position entry lies under the
walk's base directory. -/
theorem walkFiles_under (host : String → Bool) (fs : FS) :
    ∀ (fuel : Nat) (base : FsPath) (e : FsPath × String),
      e ∈ walkFiles host fs fuel base → base.isPrefixOf e.1 = true := by
  intro fuel
  induction fuel with
  | zero =>
    intro base e he
    rw [walkFiles_zero] at he
    cases he
  | succ fuel ih =>
    intro base e he
    rw [walkFiles_succ, List.mem_append] at he
    rcases he with h1 | h2
    · obtain ⟨en, _, hsome⟩ := List.mem_filterMap.mp h1
      by_cases hwd : walkIsDir host fs base en.2 = true
      · rw [if_pos hwd] at hsome
        exact Option.noConfusion hsome
      · rw [if_neg hwd] at hsome
        injection hsome with hpair
        rw [← hpair]
        exact isPrefixOf_self base
    · obtain ⟨d, _, hed⟩ := mem_foldr_append _ _ _ h2
      exact isPrefixOf_trans (isPrefixOf_append_self base [d])
        (ih (base ++ [d]) e hed)

/-- A walk entry whose path starts with the `usr` component starts
with the literal head `"usr"`. -/
theorem usr_entry_head {l : List String}
    (h : (["usr"] : FsPath).isPrefixOf l = true) : ∃ s, l = "usr" :: s := by
  obtain ⟨s, hs⟩ := (isPrefixOf_iff _ _).mp h
  exact ⟨s, hs⟩

/-- A normalised target whose top-level component is `var` has literal
head `"var"`. -/
theorem var_head {lit : FsPath} (htop : getToplevel (normPath lit) = "var") :
    ∃ s, normPath lit = "var" :: s := by
  cases hn : normPath lit with
  | nil =>
    unfold getToplevel at htop
    rw [hn] at htop
    exact absurd htop (by decide)
  | cons hd tl =>
    rw [hn] at htop
    have hhd : hd = "var" := htop
    exact ⟨tl, by rw [hhd]⟩

/-- The loop only touches paths under `usr`-headed entries, so every
lookup at a `var`-headed path is preserved across any run of it over
walk entries. -/
theorem sanitizeFold_preserves_var (uid : Nat) (l : List (FsPath × String))
    (husr : ∀ e ∈ l, (["usr"] : FsPath).isPrefixOf e.1 = true)
    (fs : FS) (s : List String) :
    lookupFS (sanitizeFold uid l fs) ("var" :: s)
      = lookupFS fs ("var" :: s) := by
  apply sanitizeFold_lookup_ne
  intro e he
  obtain ⟨s1, hs1⟩ := usr_entry_head (husr e he)
  cases hpf : (e.1 ++ [e.2]).isPrefixOf ("var" :: s) with
  | false => rfl
  | true =>
    obtain ⟨s2, hs2⟩ := (isPrefixOf_iff _ _).mp hpf
    rw [hs1, List.cons_append, List.cons_append] at hs2
    injection hs2 with h1 _
    exact absurd h1 (by decide)

/-! ## Claims about the sanitizer -/

/-- A tree with a *relative* symlink under `usr` pointing into `var`:
`usr/share/foo → ../../var/data`, where `var/data` is a regular
file. -/
def fsC1 : FS :=
  [(["usr"], .dir 755 0), (["usr", "share"], .dir 755 0),
   (["usr", "share", "foo"], .symlink "../../var/data"),
   (["var"], .dir 755 0), (["var", "data"], .file 644 0)]

/-- C1: `sanitize_usr_symlinks` leaves `fsC1` unchanged, although the
walk visits `usr/share/foo` as a file-position entry and the link
resolves to `var/data` (top-level component `var`).  The joined,
unnormalised target `usr/share/../../var/data` starts with the `usr`
components, so `os.path.commonpath([target, usrdir]) == usrdir`
classifies the link as pointing under `usr` and keeps it — although
the code's own comment says it keeps only links "pointing to a
location under /usr" and the docstring says it replaces "symlinks
from /usr pointing to /var". -/
theorem c1_relative_link_kept :
    walkFiles emptyHost fsC1 (maxDepthFS fsC1) ["usr"]
      = [(["usr", "share"], "foo")] ∧
    sanitizeUsrSymlinks 0 emptyHost fsC1 = fsC1 ∧
    lookupFS (sanitizeUsrSymlinks 0 emptyHost fsC1) ["usr", "share", "foo"]
      = some (.symlink "../../var/data") ∧
    getToplevel (normPath (literalTarget ["usr", "share"] "../../var/data"))
      = "var" := by
  decide

/-- The loop body on an actionable symlink — one the `commonpath` test
does not keep and whose resolved top-level component is `var` — whose
resolved target is neither a regular file nor a directory: `os.remove`
deletes the link and `materialize` adds nothing. -/
theorem processOne_dangling (uid : Nat) (fs : FS) (base : FsPath)
    (name t : String)
    (hlink : lookupFS fs (base ++ [name]) = some (.symlink t))
    (hcp : (["usr"] : FsPath).isPrefixOf (literalTarget base t) = false)
    (htop : getToplevel (normPath (literalTarget base t)) = "var")
    (hfile : isFileAt (removeFS fs (base ++ [name])) (literalTarget base t)
      = false)
    (hdir : isDirAt (removeFS fs (base ++ [name])) (literalTarget base t)
      = false) :
    processOne uid fs base name = removeFS fs (base ++ [name]) := by
  unfold processOne
  rw [hlink]
  show processLink uid fs base name t = removeFS fs (base ++ [name])
  unfold processLink
  rw [if_neg (by rw [hcp]; exact Bool.false_ne_true)]
  rw [if_neg (fun hcon => hcon htop)]
  unfold materialize
  unfold isFileAt at hfile
  unfold isDirAt at hdir
  cases hres : resolvedLookup (removeFS fs (base ++ [name]))
      (literalTarget base t) with
  | none => rfl
  | some nd =>
    rw [hres] at hfile hdir
    cases nd with
    | file perm owner => simp [nodeIsFile] at hfile
    | dir perm owner => simp [nodeIsDir] at hdir
    | symlink s => rfl

/-- The loop body on an actionable symlink whose resolved target is a
regular file: `os.remove` then `os.link` — the link's path ends up
holding the target's node (same permission bits and owner, the inode
being shared). -/
theorem processOne_file (uid : Nat) (fs : FS) (base : FsPath)
    (name t : String) (perm owner : Nat)
    (hlink : lookupFS fs (base ++ [name]) = some (.symlink t))
    (hcp : (["usr"] : FsPath).isPrefixOf (literalTarget base t) = false)
    (htop : getToplevel (normPath (literalTarget base t)) = "var")
    (hres : resolvedLookup (removeFS fs (base ++ [name])) (literalTarget base t)
      = some (.file perm owner)) :
    processOne uid fs base name
      = setFS (removeFS fs (base ++ [name])) (base ++ [name])
          (.file perm owner) := by
  unfold processOne
  rw [hlink]
  show processLink uid fs base name t = _
  unfold processLink
  rw [if_neg (by rw [hcp]; exact Bool.false_ne_true)]
  rw [if_neg (fun hcon => hcon htop)]
  unfold materialize
  rw [hres]

/-- The loop body on an actionable symlink whose resolved target is a
directory: `os.remove` then `shutil.copytree(target, p, symlinks=True)`
of the normalised target at the link's path. -/
theorem processOne_dir (uid : Nat) (fs : FS) (base : FsPath)
    (name t : String) (dperm downer : Nat)
    (hlink : lookupFS fs (base ++ [name]) = some (.symlink t))
    (hcp : (["usr"] : FsPath).isPrefixOf (literalTarget base t) = false)
    (htop : getToplevel (normPath (literalTarget base t)) = "var")
    (hres : resolvedLookup (removeFS fs (base ++ [name])) (literalTarget base t)
      = some (.dir dperm downer)) :
    processOne uid fs base name
      = copyTreeFS uid (removeFS fs (base ++ [name]))
          (normPath (literalTarget base t)) (base ++ [name]) := by
  unfold processOne
  rw [hlink]
  show processLink uid fs base name t = _
  unfold processLink
  rw [if_neg (by rw [hcp]; exact Bool.false_ne_true)]
  rw [if_neg (fun hcon => hcon htop)]
  unfold materialize
  rw [hres]

/-- A concrete tree for the `c9` witness: `usr/l` is a dangling
absolute link into `var`. -/
def fsC9 : FS :=
  [(["usr"], .dir 755 0), (["usr", "l"], .symlink "/var/gone"),
   (["var"], .dir 755 0)]

/-- C9: if the walk of `sanitize_usr_symlinks` visits the actionable
symlink `b/n` — one the `commonpath` test does not keep and whose
resolved top-level component is `var` — whose resolved target is
neither a regular file nor a directory, and every other walk entry is
path-incomparable with it, then after the whole stage no entry exists
at the former link path: the loop body removed it and materialized
nothing, and no other iteration recreates it. -/
theorem c9_dangling_link_removed_stage (uid : Nat) (host : String → Bool)
    (fs : FS) (b : FsPath) (n t : String) (l₁ l₂ : List (FsPath × String))
    (hwalk : walkFiles host fs (maxDepthFS fs) ["usr"] = l₁ ++ (b, n) :: l₂)
    (hinc : ∀ e ∈ l₁ ++ l₂,
      (e.1 ++ [e.2]).isPrefixOf (b ++ [n]) = false ∧
      (b ++ [n]).isPrefixOf (e.1 ++ [e.2]) = false)
    (hlink : lookupFS fs (b ++ [n]) = some (.symlink t))
    (hcp : (["usr"] : FsPath).isPrefixOf (literalTarget b t) = false)
    (htop : getToplevel (normPath (literalTarget b t)) = "var")
    (hfile : nodeIsFile (lookupFS fs (normPath (literalTarget b t))) = false)
    (hdir : nodeIsDir (lookupFS fs (normPath (literalTarget b t))) = false) :
    lookupFS (sanitizeUsrSymlinks uid host fs) (b ++ [n]) = none := by
  have husrL : ∀ e ∈ l₁ ++ (b, n) :: l₂,
      (["usr"] : FsPath).isPrefixOf e.1 = true := by
    intro e he
    exact walkFiles_under host fs (maxDepthFS fs) ["usr"] e
      (by rw [hwalk]; exact he)
  obtain ⟨vs, hvs⟩ := var_head htop
  obtain ⟨bs, hbs⟩ := usr_entry_head (husrL (b, n)
    (List.mem_append_right _ (List.mem_cons_self _ _)))
  have hbs2 : b = "usr" :: bs := hbs
  have hbn : b ++ [n] = "usr" :: (bs ++ [n]) := by
    rw [hbs2]
    rfl
  have hne_tp : ¬ normPath (literalTarget b t) = b ++ [n] := by
    rw [hvs, hbn]
    exact cons_ne_of_head (by decide)
  unfold sanitizeUsrSymlinks
  rw [hwalk, sanitizeFold_append, sanitizeFold_cons]
  have hp1p : lookupFS (sanitizeFold uid l₁ fs) (b ++ [n])
      = lookupFS fs (b ++ [n]) :=
    sanitizeFold_lookup_ne uid l₁ fs (b ++ [n])
      (fun e he => (hinc e (List.mem_append_left _ he)).1)
  have hp1t : lookupFS (sanitizeFold uid l₁ fs) (normPath (literalTarget b t))
      = lookupFS fs (normPath (literalTarget b t)) := by
    rw [hvs]
    exact sanitizeFold_preserves_var uid l₁
      (fun e he => husrL e (List.mem_append_left _ he)) fs vs
  have hres : resolvedLookup (removeFS (sanitizeFold uid l₁ fs) (b ++ [n]))
      (literalTarget b t) = lookupFS fs (normPath (literalTarget b t)) := by
    unfold resolvedLookup
    rw [lookup_removeFS_ne _ _ _ hne_tp, hp1t]
  have hstep : processOne uid (sanitizeFold uid l₁ fs) b n
      = removeFS (sanitizeFold uid l₁ fs) (b ++ [n]) := by
    apply processOne_dangling uid _ b n t
    · rw [hp1p]
      exact hlink
    · exact hcp
    · exact htop
    · unfold isFileAt
      rw [hres]
      exact hfile
    · unfold isDirAt
      rw [hres]
      exact hdir
  rw [hstep]
  rw [sanitizeFold_lookup_ne uid l₂ _ (b ++ [n])
    (fun e he => (hinc e (List.mem_append_right _ he)).1)]
  exact lookup_removeFS_self _ (b ++ [n])

/-- Witness for `c9_dangling_link_removed_stage` on `fsC9`. -/
theorem c9_dangling_link_removed_stage_witness :
    lookupFS (sanitizeUsrSymlinks 0 emptyHost fsC9) (["usr"] ++ ["l"])
      = none :=
  c9_dangling_link_removed_stage 0 emptyHost fsC9 ["usr"] "l" "/var/gone"
    [] [] (by decide) (by decide) (by decide) (by decide) (by decide)
    (by decide) (by decide)

/-- A tree with a symlink under `usr` whose resolved target is a
directory under `var` owned by uid 7, holding a file owned by uid 7
and a nested relative symlink. -/
def fsC8 : FS :=
  [(["usr"], .dir 755 0), (["usr", "l"], .symlink "/var/d"),
   (["var"], .dir 755 0), (["var", "d"], .dir 700 7),
   (["var", "d", "f"], .file 600 7), (["var", "d", "s"], .symlink "../e")]

/-- C8 counterexample: `usr/l` is an actionable symlink whose resolved
target is the directory `var/d` owned by uid 7, and the walk visits it
at a file position — `entry.is_dir()` follows the absolute link
against the *process* root, where the tree's `var/d` does not exist.
The loop's `shutil.copytree` branch runs, and the claim's "preserving
… ownership" fails: the copied entries at `usr/l` are owned by the
invoking process (uid 0), not by the original owner 7, though
permission bits and the nested symlink are preserved. -/
theorem c8_ownership_counterexample :
    lookupFS fsC8 ["usr", "l"] = some (.symlink "/var/d") ∧
    (["usr"] : FsPath).isPrefixOf (literalTarget ["usr"] "/var/d") = false ∧
    getToplevel (normPath (literalTarget ["usr"] "/var/d")) = "var" ∧
    isDirAt fsC8 (literalTarget ["usr"] "/var/d") = true ∧
    lookupFS fsC8 ["var", "d"] = some (.dir 700 7) ∧
    lookupFS fsC8 ["var", "d", "f"] = some (.file 600 7) ∧
    walkFiles emptyHost fsC8 (maxDepthFS fsC8) ["usr"] = [(["usr"], "l")] ∧
    lookupFS (sanitizeUsrSymlinks 0 emptyHost fsC8) ["usr", "l"]
      = some (.dir 700 0) ∧
    lookupFS (sanitizeUsrSymlinks 0 emptyHost fsC8) ["usr", "l", "f"]
      = some (.file 600 0) ∧
    lookupFS (sanitizeUsrSymlinks 0 emptyHost fsC8) ["usr", "l", "s"]
      = some (.symlink "../e") := by
  decide

/-- C8 (amended): for an actionable symlink the walk visits at a file
position, path-incomparable with the other walk entries: (a) if the
resolved target is a regular file, after the stage the link's path
holds the target's node — `os.link` shares the inode, so permission
bits and owner are the target's; (b) if the resolved target is a
directory and nothing in the initial tree lies strictly below the
link's path, after the stage every path under the link's path holds
the `copyNode`-image of the corresponding path under the target:
`shutil.copytree(…, symlinks=True)` preserves nested symlinks and
permission bits but not ownership — every copied entry is owned by the
invoking process. -/
theorem c8_visited_link_materialized (uid : Nat) (host : String → Bool)
    (fs : FS) (b : FsPath) (n t : String) (l₁ l₂ : List (FsPath × String))
    (hwalk : walkFiles host fs (maxDepthFS fs) ["usr"] = l₁ ++ (b, n) :: l₂)
    (hinc : ∀ e ∈ l₁ ++ l₂,
      (e.1 ++ [e.2]).isPrefixOf (b ++ [n]) = false ∧
      (b ++ [n]).isPrefixOf (e.1 ++ [e.2]) = false)
    (hclean : ∀ e ∈ fs,
      (b ++ [n]).isPrefixOf e.1 = false ∨ e.1 = b ++ [n])
    (hlink : lookupFS fs (b ++ [n]) = some (.symlink t))
    (hcp : (["usr"] : FsPath).isPrefixOf (literalTarget b t) = false)
    (htop : getToplevel (normPath (literalTarget b t)) = "var") :
    (∀ perm owner,
      lookupFS fs (normPath (literalTarget b t)) = some (.file perm owner) →
      lookupFS (sanitizeUsrSymlinks uid host fs) (b ++ [n])
        = some (.file perm owner)) ∧
    (∀ dperm downer,
      lookupFS fs (normPath (literalTarget b t)) = some (.dir dperm downer) →
      ∀ q, lookupFS (sanitizeUsrSymlinks uid host fs) ((b ++ [n]) ++ q)
        = (lookupFS fs (normPath (literalTarget b t) ++ q)).map
            (copyNode uid)) := by
  have husrL : ∀ e ∈ l₁ ++ (b, n) :: l₂,
      (["usr"] : FsPath).isPrefixOf e.1 = true := by
    intro e he
    exact walkFiles_under host fs (maxDepthFS fs) ["usr"] e
      (by rw [hwalk]; exact he)
  obtain ⟨vs, hvs⟩ := var_head htop
  obtain ⟨bs, hbs⟩ := usr_entry_head (husrL (b, n)
    (List.mem_append_right _ (List.mem_cons_self _ _)))
  have hbs2 : b = "usr" :: bs := hbs
  have hbn : b ++ [n] = "usr" :: (bs ++ [n]) := by
    rw [hbs2]
    rfl
  have hne_tp : ¬ normPath (literalTarget b t) = b ++ [n] := by
    rw [hvs, hbn]
    exact cons_ne_of_head (by decide)
  unfold sanitizeUsrSymlinks
  rw [hwalk, sanitizeFold_append, sanitizeFold_cons]
  have hp1p : lookupFS (sanitizeFold uid l₁ fs) (b ++ [n])
      = lookupFS fs (b ++ [n]) :=
    sanitizeFold_lookup_ne uid l₁ fs (b ++ [n])
      (fun e he => (hinc e (List.mem_append_left _ he)).1)
  have hp1t : lookupFS (sanitizeFold uid l₁ fs) (normPath (literalTarget b t))
      = lookupFS fs (normPath (literalTarget b t)) := by
    rw [hvs]
    exact sanitizeFold_preserves_var uid l₁
      (fun e he => husrL e (List.mem_append_left _ he)) fs vs
  have hres : resolvedLookup (removeFS (sanitizeFold uid l₁ fs) (b ++ [n]))
      (literalTarget b t) = lookupFS fs (normPath (literalTarget b t)) := by
    unfold resolvedLookup
    rw [lookup_removeFS_ne _ _ _ hne_tp, hp1t]
  constructor
  · intro perm owner hf
    have hstep : processOne uid (sanitizeFold uid l₁ fs) b n
        = setFS (removeFS (sanitizeFold uid l₁ fs) (b ++ [n])) (b ++ [n])
            (.file perm owner) := by
      apply processOne_file uid _ b n t perm owner
      · rw [hp1p]
        exact hlink
      · exact hcp
      · exact htop
      · rw [hres]
        exact hf
    rw [hstep]
    rw [sanitizeFold_lookup_ne uid l₂ _ (b ++ [n])
      (fun e he => (hinc e (List.mem_append_right _ he)).1)]
    exact lookup_setFS_self _ _ _
  · intro dperm downer hd q
    have hstep : processOne uid (sanitizeFold uid l₁ fs) b n
        = copyTreeFS uid (removeFS (sanitizeFold uid l₁ fs) (b ++ [n]))
            (normPath (literalTarget b t)) (b ++ [n]) := by
      apply processOne_dir uid _ b n t dperm downer
      · rw [hp1p]
        exact hlink
      · exact hcp
      · exact htop
      · rw [hres]
        exact hd
    rw [hstep]
    rw [sanitizeFold_lookup_ne uid l₂ _ ((b ++ [n]) ++ q)
      (fun e he => not_prefixOf_append q (hinc e (List.mem_append_right _ he)).1
        (hinc e (List.mem_append_right _ he)).2)]
    have hclean1 : ∀ q2 : FsPath,
        lookupFS (removeFS (sanitizeFold uid l₁ fs) (b ++ [n]))
          ((b ++ [n]) ++ q2) = none := by
      intro q2
      cases q2 with
      | nil =>
        rw [List.append_nil]
        exact lookup_removeFS_self _ _
      | cons a as =>
        have hne : ¬ (b ++ [n]) ++ (a :: as) = b ++ [n] := by
          intro he
          have hl := congrArg List.length he
          rw [List.length_append, List.length_cons] at hl
          omega
        rw [lookup_removeFS_ne _ _ _ hne]
        rw [sanitizeFold_lookup_ne uid l₁ fs ((b ++ [n]) ++ (a :: as))
          (fun e he => not_prefixOf_append (a :: as)
            (hinc e (List.mem_append_left _ he)).1
            (hinc e (List.mem_append_left _ he)).2)]
        cases hl2 : lookupFS fs ((b ++ [n]) ++ (a :: as)) with
        | none => rfl
        | some nd =>
          obtain ⟨e, he, hekey⟩ := lookupFS_some_mem fs _ nd hl2
          rcases hclean e he with hpf | heq
          · rw [hekey, isPrefixOf_append_self] at hpf
            exact Bool.noConfusion hpf
          · rw [hekey] at heq
            have hle := congrArg List.length heq
            rw [List.length_append, List.length_cons] at hle
            omega
    rw [lookup_copyTree_at uid _ (normPath (literalTarget b t)) (b ++ [n])
      hclean1 q]
    have hne2 : ¬ normPath (literalTarget b t) ++ q = b ++ [n] := by
      rw [hvs, hbn, List.cons_append]
      exact cons_ne_of_head (by decide)
    rw [lookup_removeFS_ne _ _ _ hne2]
    have hp1tq : lookupFS (sanitizeFold uid l₁ fs)
        (normPath (literalTarget b t) ++ q)
        = lookupFS fs (normPath (literalTarget b t) ++ q) := by
      rw [hvs, List.cons_append]
      exact sanitizeFold_preserves_var uid l₁
        (fun e he => husrL e (List.mem_append_left _ he)) fs (vs ++ q)
    rw [hp1tq]

/-- Witness for `c8_visited_link_materialized` on `fsC8`, directory
branch, at the copied file `usr/l/f`. -/
theorem c8_visited_link_materialized_witness :
    lookupFS (sanitizeUsrSymlinks 0 emptyHost fsC8) (["usr"] ++ ["l"] ++ ["f"])
      = (lookupFS fsC8 (normPath (literalTarget ["usr"] "/var/d") ++ ["f"])).map
          (copyNode 0) :=
  (c8_visited_link_materialized 0 emptyHost fsC8 ["usr"] "l" "/var/d" [] []
    (by decide) (by decide) (by decide) (by decide) (by decide)
    (by decide)).2 700 7 (by decide) ["f"]

/-! ## LayoutTransformer stage order — `Bootstrap.create_ostree`
(bootstrap.py lines 171–181) -/

/-- The observable pipeline stages named by the spec's state
machine. -/
inductive Stage where
  | mutableRelocated
  | cruftRemoved
  | configRelocated
  | mountpointsCreated
  | symlinksSanitized
  | topLevelLinksBuilt
  | bootSetup
  | tmpfilesWritten
  | done
deriving DecidableEq, Repr

/-- The stage order `create_ostree` actually executes: `setup_boot`
(line 174), then `create_tmpfile_dir` (line 178), then
`convert_to_ostree` (line 180), whose body (lines 183–243) runs
`sanitize_usr_symlinks`, the `/var` relocation, cruft removal, the
`/etc` move, the `ostree`/`sysroot` mount-point creation and the
top-level symlink loop, in that order; the pipeline then finishes. -/
def createOstreeTrace : List Stage :=
  [.bootSetup, .tmpfilesWritten, .symlinksSanitized, .mutableRelocated,
   .cruftRemoved, .configRelocated, .mountpointsCreated,
   .topLevelLinksBuilt, .done]

/-- Position of a stage in the executed order. -/
def stageIdx (s : Stage) : Nat :=
  createOstreeTrace.indexOf s

/-- C6: the executed order violates the spec's order — boot-artifact
relocation does *not* come after symlink sanitization and
mutable-state relocation, and tmpfiles generation is *not* the final
stage before `Done`. -/
theorem c6_counterexample :
    ¬ (stageIdx .symlinksSanitized < stageIdx .bootSetup ∧
       stageIdx .mutableRelocated < stageIdx .bootSetup ∧
       stageIdx .tmpfilesWritten + 1 = stageIdx .done) := by
  decide

/-- C6 (amended): the stages execute in the fixed strict order
`BootSetup → TmpfilesWritten → SymlinksSanitized → MutableRelocated →
CruftRemoved → ConfigRelocated → MountpointsCreated →
TopLevelLinksBuilt → Done`: boot-artifact relocation runs first and
tmpfiles generation second, before any restructuring. -/
theorem c6_amended :
    stageIdx .bootSetup < stageIdx .tmpfilesWritten ∧
    stageIdx .tmpfilesWritten < stageIdx .symlinksSanitized ∧
    stageIdx .symlinksSanitized < stageIdx .mutableRelocated ∧
    stageIdx .mutableRelocated < stageIdx .cruftRemoved ∧
    stageIdx .cruftRemoved < stageIdx .configRelocated ∧
    stageIdx .configRelocated < stageIdx .mountpointsCreated ∧
    stageIdx .mountpointsCreated < stageIdx .topLevelLinksBuilt ∧
    stageIdx .topLevelLinksBuilt < stageIdx .done ∧
    createOstreeTrace.Nodup := by
  decide

/-! ## ToplevelSymlinkBuilder — the symlink block of
`Bootstrap.convert_to_ostree` (bootstrap.py lines 229–243) -/

/-- `TOPLEVEL_LINKS` (source lines 230–239), in insertion order. -/
def TOPLEVEL_LINKS : List (String × String) :=
  [("home", "var/home"), ("media", "run/media"), ("mnt", "var/mnt"),
   ("opt", "var/opt"), ("ostree", "sysroot/ostree"),
   ("root", "var/roothome"), ("srv", "var/srv"),
   ("usr/local", "../var/usrlocal")]

/-- A mapping key as a root-relative path. -/
def keyPath (s : String) : FsPath :=
  strSplitOn '/' s

/-- `shutil.rmtree(p)`: fails (raises) unless `p` is a directory —
a missing entry raises `FileNotFoundError`, a symlink or file a
`NotADirectoryError` — and removes the directory with everything
below it. -/
def rmtreeFS (fs : FS) (p : FsPath) : Option FS :=
  match lookupFS fs p with
  | some (.dir _ _) => some (fs.filter (fun e => ! p.isPrefixOf e.1))
  | _ => none

/-- One iteration of the symlink loop (source lines 241–243):
`shutil.rmtree(rootdir/l)` then `os.symlink(t, l, dir_fd=fd)`. -/
def toplevelStep (fs : FS) (lt : String × String) : Option FS :=
  (rmtreeFS fs (keyPath lt.1)).map
    (fun fs' => setFS fs' (keyPath lt.1) (.symlink lt.2))

/-- The loop over a pairs list, failure-propagating. -/
def toplevelFold (pairs : List (String × String)) (ofs : Option FS) :
    Option FS :=
  pairs.foldl (fun o lt => o.bind (fun fs => toplevelStep fs lt)) ofs

/-- The whole symlink block of `convert_to_ostree`. -/
def toplevelLinksStage (fs : FS) : Option FS :=
  toplevelFold TOPLEVEL_LINKS (some fs)

theorem toplevelStep_some (fs fs' : FS) (lt : String × String)
    (h : toplevelStep fs lt = some fs') :
    ∃ fs1, rmtreeFS fs (keyPath lt.1) = some fs1 ∧
      fs' = setFS fs1 (keyPath lt.1) (.symlink lt.2) := by
  unfold toplevelStep at h
  cases hr : rmtreeFS fs (keyPath lt.1) with
  | none => rw [hr] at h; cases h
  | some fs1 =>
    rw [hr] at h
    exact ⟨fs1, rfl, (Option.some_inj.mp h).symm⟩

theorem toplevelStep_lookup_self (fs fs' : FS) (lt : String × String)
    (h : toplevelStep fs lt = some fs') :
    lookupFS fs' (keyPath lt.1) = some (.symlink lt.2) := by
  obtain ⟨fs1, _, he⟩ := toplevelStep_some fs fs' lt h
  rw [he]
  exact lookup_setFS_self _ _ _

theorem rmtreeFS_lookup_ne (fs fs' : FS) (p q : FsPath)
    (h : rmtreeFS fs p = some fs') (hq : p.isPrefixOf q = false) :
    lookupFS fs' q = lookupFS fs q := by
  unfold rmtreeFS at h
  cases hl : lookupFS fs p with
  | none => rw [hl] at h; cases h
  | some nd =>
    rw [hl] at h
    cases nd with
    | file perm owner => cases h
    | symlink t => cases h
    | dir perm owner =>
      rw [← Option.some_inj.mp h]
      apply lookupFS_filter_keep
      intro n
      simp [hq]

theorem toplevelStep_lookup_ne (fs fs' : FS) (lt : String × String)
    (q : FsPath) (h : toplevelStep fs lt = some fs')
    (hq : (keyPath lt.1).isPrefixOf q = false) :
    lookupFS fs' q = lookupFS fs q := by
  have hne : ¬ q = keyPath lt.1 := by
    intro he
    rw [he, isPrefixOf_self] at hq
    cases hq
  obtain ⟨fs1, hr, he⟩ := toplevelStep_some fs fs' lt h
  rw [he, lookup_setFS_ne _ _ _ _ hne]
  exact rmtreeFS_lookup_ne fs fs1 (keyPath lt.1) q hr hq

theorem toplevelFold_cons (lt : String × String)
    (rest : List (String × String)) (fs : FS) :
    toplevelFold (lt :: rest) (some fs) = toplevelFold rest (toplevelStep fs lt) :=
  rfl

theorem toplevelFold_none (pairs : List (String × String)) :
    toplevelFold pairs none = none := by
  induction pairs with
  | nil => rfl
  | cons lt rest ih => exact ih

theorem toplevelFold_lookup_ne (pairs : List (String × String)) :
    ∀ (fs fs' : FS) (q : FsPath),
      toplevelFold pairs (some fs) = some fs' →
      (∀ lt ∈ pairs, (keyPath lt.1).isPrefixOf q = false) →
      lookupFS fs' q = lookupFS fs q := by
  induction pairs with
  | nil =>
    intro fs fs' q h _
    rw [← Option.some_inj.mp h]
  | cons lt rest ih =>
    intro fs fs' q h hq
    rw [toplevelFold_cons] at h
    cases hstep : toplevelStep fs lt with
    | none =>
      rw [hstep, toplevelFold_none] at h
      cases h
    | some fs1 =>
      rw [hstep] at h
      rw [ih fs1 fs' q h (fun p hp => hq p (List.mem_cons_of_mem _ hp)),
        toplevelStep_lookup_ne fs fs1 lt q hstep (hq lt (List.mem_cons_self _ _))]

theorem toplevelFold_sets (pairs : List (String × String))
    (hpw : pairs.Pairwise
      (fun a b => (keyPath b.1).isPrefixOf (keyPath a.1) = false)) :
    ∀ (fs fs' : FS),
      toplevelFold pairs (some fs) = some fs' →
      ∀ lt ∈ pairs, lookupFS fs' (keyPath lt.1) = some (.symlink lt.2) := by
  induction pairs with
  | nil => intro fs fs' _ lt hmem; cases hmem
  | cons a rest ih =>
    intro fs fs' h lt hmem
    rw [List.pairwise_cons] at hpw
    rw [toplevelFold_cons] at h
    cases hstep : toplevelStep fs a with
    | none =>
      rw [hstep, toplevelFold_none] at h
      cases h
    | some fs1 =>
      rw [hstep] at h
      rcases List.mem_cons.mp hmem with he | hmem'
      · subst he
        rw [toplevelFold_lookup_ne rest fs1 fs' (keyPath lt.1) h hpw.1]
        exact toplevelStep_lookup_self fs fs1 lt hstep
      · exact ih hpw.2 fs1 fs' h lt hmem'

/-- C7: if the top-level symlink loop of `convert_to_ostree` completes
successfully, then for every entry `(name, target)` of
`TOPLEVEL_LINKS` the path at `name` under the tree root is a symbolic
link node (not a directory) whose target string is exactly the mapped
value. -/
theorem c7_toplevel_links (fs fs' : FS)
    (h : toplevelLinksStage fs = some fs')
    (lt : String × String) (hmem : lt ∈ TOPLEVEL_LINKS) :
    lookupFS fs' (keyPath lt.1) = some (.symlink lt.2) :=
  toplevelFold_sets TOPLEVEL_LINKS (by decide) fs fs' h lt hmem

/-- A tree-root state before the symlink block: the eight names exist
as directories (some with content), as left by the earlier steps of
`convert_to_ostree`. -/
def fsC7 : FS :=
  [(["home"], .dir 755 0), (["home", "user"], .file 644 1000),
   (["media"], .dir 755 0), (["mnt"], .dir 755 0), (["opt"], .dir 755 0),
   (["ostree"], .dir 755 0), (["root"], .dir 700 0), (["srv"], .dir 755 0),
   (["usr"], .dir 755 0), (["usr", "local"], .dir 755 0),
   (["usr", "local", "bin"], .dir 755 0), (["var"], .dir 755 0)]

/-- The tree after the symlink block runs on `fsC7`. -/
def fsC7' : FS :=
  (toplevelLinksStage fsC7).getD []

/-- Witness for `c7_toplevel_links` at the concrete tree `fsC7`. -/
theorem c7_toplevel_links_witness :
    lookupFS fsC7' (keyPath "usr/local") = some (.symlink "../var/usrlocal") :=
  c7_toplevel_links fsC7 fsC7' (by decide)
    ("usr/local", "../var/usrlocal") (by decide)

/-! ## TmpfilesGenerator — `Bootstrap.create_tmpfile_dir`
(bootstrap.py lines 339–365) -/

/-- One entry of the package ownership index (`apt.cache.Cache`): a
package name and the paths it owns (`pkg.installed_files`). -/
structure Pkg where
  name : String
  installedFiles : List String
deriving DecidableEq, Repr

/-- `excluded_packages` from `src/apt_ostree/constants.py`. -/
def excludedPackages : List String :=
  ["ucf", "base-files", "systemd", "init-system-helpers",
   "dbus", "policykit-1", "polkitd", "debconf"]

/-- The collection loop of `create_tmpfile_dir` (source lines
343–348): a package contributes its `/var`-prefixed paths only when
the *literal string* `"/var"` is a member of its file list
(`if "/var" in pkg.installed_files`) and it is not excluded. -/
def collectVarDirs (cache : List Pkg) : List String :=
  cache.foldl
    (fun dirs pkg =>
      if "/var" ∈ pkg.installedFiles ∧ ¬ pkg.name ∈ excludedPackages then
        dirs ++ pkg.installedFiles.filter (fun f => strStartsWith f "/var")
      else dirs)
    []

/-- The canonical base paths never emitted as rules (source lines
358–364). -/
def canonicalVarPaths : List String :=
  ["/var", "/var/lock", "/var/cache", "/var/spool", "/var/log", "/var/lib"]

/-- The comment line the generator writes first (source line 356,
spelling as in the source). -/
def tmpfilesHeader : String := "# Auto-genernated by apt-ostree"

/-- One generated rule line (source line 365). -/
def ruleLine (d : String) : String :=
  "L " ++ d ++ " - - - - ../../usr/rootdirs" ++ d

/-- `Bootstrap.create_tmpfile_dir`, as a function from the ownership
index and the previous content of
`usr/lib/tmpfiles.d/ostree-integration-autovar.conf` (`none` = file
absent, `some lines` = its lines) to the file's content afterwards.
When the collected list is empty the source returns before touching
the file (line 349–350); otherwise it unlinks any stale file and
writes the header plus one rule line per non-canonical path. -/
def createTmpfileDir (cache : List Pkg) (conf : Option (List String)) :
    Option (List String) :=
  let dirs := collectVarDirs cache
  if dirs = [] then conf
  else
    some (tmpfilesHeader ::
      (dirs.filter (fun d => ¬ d ∈ canonicalVarPaths)).map ruleLine)

/-! ### C4 / C5 concrete indexes -/

/-- C4's index: non-excluded package `foo` owning exactly the one
mutable-state path `/var/lib/foo/data`. -/
def cacheC4 : List Pkg := [⟨"foo", ["/var/lib/foo/data"]⟩]

/-- C5's stale configuration file content. -/
def staleConf : List String :=
  ["L /var/old - - - - ../../usr/rootdirs/var/old"]

/-- The rule line C4 expects. -/
def fooRule : String := "L /var/lib/foo/data - - - - ../../usr/rootdirs/var/lib/foo/data"

/-- C4: the generator writes nothing for `cacheC4` (the membership
gate `"/var" in pkg.installed_files` fails). -/
theorem c4_counterexample :
    createTmpfileDir cacheC4 none = none ∧
      ¬ createTmpfileDir cacheC4 none = some [fooRule] := by
  constructor
  · rfl
  · intro h
    simp [createTmpfileDir, cacheC4, collectVarDirs, excludedPackages] at h

/-- C4 (amended): when the collected mutable-state path list is
exactly `/var` (the literal path the membership gate requires the
package to own) together with `/var/lib/foo/data`, the generator
writes the file with the fixed comment header followed by exactly one
rule line `L /var/lib/foo/data - - - - ../../usr/rootdirs/var/lib/foo/data`. -/
theorem c4_amended (cache : List Pkg) (conf : Option (List String))
    (h : collectVarDirs cache = ["/var", "/var/lib/foo/data"]) :
    createTmpfileDir cache conf = some [tmpfilesHeader, fooRule] := by
  simp only [createTmpfileDir, h]
  rfl

/-- Witness for `c4_amended` at a concrete index. -/
theorem c4_amended_witness :
    createTmpfileDir [⟨"foo", ["/var", "/var/lib/foo/data"]⟩] none
      = some [tmpfilesHeader, fooRule] :=
  c4_amended [⟨"foo", ["/var", "/var/lib/foo/data"]⟩] none (by rfl)

/-- C5: on an index with zero matching paths the generator returns
early, so a pre-existing stale configuration file is *not* removed. -/
theorem c5_counterexample :
    createTmpfileDir [] (some staleConf) = some staleConf ∧
      ¬ createTmpfileDir [] (some staleConf) = none := by
  constructor
  · rfl
  · intro h
    simp [createTmpfileDir, collectVarDirs] at h

/-- C5 (amended): whenever the collected mutable-state path list is
empty, the generator leaves the configuration file exactly as it was —
it neither writes a file nor removes a stale one. -/
theorem c5_amended (cache : List Pkg) (conf : Option (List String))
    (h : collectVarDirs cache = []) :
    createTmpfileDir cache conf = conf := by
  simp [createTmpfileDir, h]

/-- Witness for `c5_amended`. -/
theorem c5_amended_witness :
    createTmpfileDir [] (some staleConf) = some staleConf :=
  c5_amended [] (some staleConf) (by rfl)

/-! ## BootArtifactRelocator — `Bootstrap.setup_boot`
(bootstrap.py lines 292–336) -/

/-- The filesystem state `setup_boot` touches: the boot directory's
entry names (in `os.listdir` order), whether the parent of the target
directory and the target directory itself exist, the names of version
subdirectories existing under the target, the files directly under the
target, and the `(version subdirectory, filename)` pairs of files
inside version subdirectories. -/
structure BootState where
  bootFiles : List String
  targetParentExists : Bool
  targetExists : Bool
  targetSubdirs : List String
  targetFiles : List String
  versionFiles : List (String × String)
deriving DecidableEq, Repr

/-- How a `setup_boot` run fails: a failed `assert`
(`AssertionError`), the `ValueError` from unpacking
`item.split("-", 1)` into two names when the kernel filename has no
separator, or the `sys.exit(1)` in the rename exception handlers. -/
inductive BootErr where
  | assertFail
  | valueFail
  | exitFail
deriving DecidableEq, Repr

/-- The classification accumulators of the scan loop (source lines
294–297). -/
structure BootAcc where
  vmlinuz : Option String
  initrd : Option String
  dtbs : Option String
  version : Option String
deriving DecidableEq, Repr

/-- `item.startswith("vmlinuz")` (source line 305). -/
def isVmlinuzName (s : String) : Bool :=
  strStartsWith s "vmlinuz"

/-- `item.startswith("initrd.img") or item.startswith("initramfs")`
(source line 309). -/
def isInitrdName (s : String) : Bool :=
  strStartsWith s "initrd.img" || strStartsWith s "initramfs"

/-- `item.startswith("dtbs")` (source line 312). -/
def isDtbsName (s : String) : Bool :=
  strStartsWith s "dtbs"

/-- `item.startswith("System.map")` (source line 315). -/
def isSysmapName (s : String) : Bool :=
  strStartsWith s "System.map"

/-- The scan loop of `setup_boot` (source lines 304–320) over the
snapshot `items` of `os.listdir(bootdir)`.  A second `vmlinuz` item
fails the `assert vmlinuz is None`; `_, version = item.split("-", 1)`
raises `ValueError` when the name holds no `-`; a second
`initrd`/`dtbs` item fails the respective assert; `System.map*` items
are moved into the target directory as encountered (`shutil.move`,
failure logged and swallowed — it can only fail here when the target
directory is missing because its parent did not exist at `os.mkdir`
time).  Errors carry the state at the moment of failure.
`bootStep` is the body for one entry. -/
def bootStep (item : String) (acc : BootAcc) (st : BootState) :
    Except (BootErr × BootState) (BootAcc × BootState) :=
  if isVmlinuzName item then
    if acc.vmlinuz.isSome then .error (.assertFail, st)
    else
      match afterFirstSep '-' item.data with
      | none => .error (.valueFail, st)
      | some v =>
        .ok ({ acc with vmlinuz := some item, version := some ⟨v⟩ }, st)
  else if isInitrdName item then
    if acc.initrd.isSome then .error (.assertFail, st)
    else .ok ({ acc with initrd := some item }, st)
  else if isDtbsName item then
    if acc.dtbs.isSome then .error (.assertFail, st)
    else .ok ({ acc with dtbs := some item }, st)
  else if isSysmapName item then
    if st.targetExists then
      .ok (acc, { st with bootFiles := st.bootFiles.erase item,
                          targetFiles := item :: st.targetFiles })
    else .ok (acc, st)
  else .ok (acc, st)

/-- The whole scan loop: `bootStep` on each entry, failure
propagating. -/
def bootScan : List String → BootAcc → BootState →
    Except (BootErr × BootState) (BootAcc × BootState)
  | [], acc, st => .ok (acc, st)
  | item :: rest, acc, st =>
    match bootStep item acc st with
    | .error e => .error e
    | .ok (acc2, st2) => bootScan rest acc2 st2

/-- `os.mkdir(targetdir)` with `OSError` passed (source lines
299–302): creates the target directory when its parent exists; an
already-existing directory or a missing parent is silently
tolerated. -/
def mkdirTarget (st : BootState) : BootState :=
  if st.targetParentExists then { st with targetExists := true } else st

/-- `os.rename(bootdir/src, targetdir/version/dst)`: succeeds iff the
target directory and the version subdirectory exist and the source is
present in the boot directory; on success the boot entry becomes
`(version, dst)` under the target.  `setup_boot` never creates the
version subdirectory. -/
def renameIntoVersion (st : BootState) (src version dst : String) :
    Option BootState :=
  if st.targetExists = true ∧ version ∈ st.targetSubdirs ∧
      src ∈ st.bootFiles then
    some { st with bootFiles := st.bootFiles.erase src,
                   versionFiles := (version, dst) :: st.versionFiles }
  else none

/-- The tail of `setup_boot` after the scan loop (source lines
321–336): the final `assert vmlinuz is not None`, the rename of the
kernel image to `<target>/<version>/vmlinuz` and, when an initrd was
seen, of the initrd to `<target>/<version>/initramfs.img`; each rename
failure is logged and followed by `sys.exit(1)`. -/
def renameInitrdFile (i v : String) (st3 : BootState) :
    Except (BootErr × BootState) BootState :=
  match renameIntoVersion st3 i v "initramfs.img" with
  | none => .error (.exitFail, st3)
  | some st4 => .ok st4

/-- The initrd relocation (source lines 330–336): nothing when no
initrd was seen, otherwise `renameInitrdFile`. -/
def renameInitrd (acc : BootAcc) (v : String) (st3 : BootState) :
    Except (BootErr × BootState) BootState :=
  match acc.initrd with
  | none => .ok st3
  | some i => renameInitrdFile i v st3

/-- The kernel relocation (source lines 323–328) followed by the
initrd relocation. -/
def renameKernel (k v : String) (acc : BootAcc) (st2 : BootState) :
    Except (BootErr × BootState) BootState :=
  match renameIntoVersion st2 k v "vmlinuz" with
  | none => .error (.exitFail, st2)
  | some st3 => renameInitrd acc v st3

def bootFinish (acc : BootAcc) (st2 : BootState) :
    Except (BootErr × BootState) BootState :=
  match acc.vmlinuz, acc.version with
  | some k, some v => renameKernel k v acc st2
  | _, _ => .error (.assertFail, st2)

/-- `Bootstrap.setup_boot` (source lines 292–336): the tolerant
`os.mkdir` of the target directory, the scan loop, then
`bootFinish`. -/
def setupBoot (st0 : BootState) : Except (BootErr × BootState) BootState :=
  match bootScan (mkdirTarget st0).bootFiles ⟨none, none, none, none⟩
      (mkdirTarget st0) with
  | .error e => .error e
  | .ok (acc, st2) => bootFinish acc st2

instance {ε α : Type} [DecidableEq ε] [DecidableEq α] :
    DecidableEq (Except ε α) := fun x y =>
  match x, y with
  | .ok a, .ok b =>
    if h : a = b then isTrue (by rw [h])
    else isFalse (by intro hc; cases hc; exact h rfl)
  | .error a, .error b =>
    if h : a = b then isTrue (by rw [h])
    else isFalse (by intro hc; cases hc; exact h rfl)
  | .ok _, .error _ => isFalse (by intro hc; cases hc)
  | .error _, .ok _ => isFalse (by intro hc; cases hc)

/-- A boot directory whose single kernel entry is exactly `vmlinuz`,
with no separator. -/
def bootStC10 : BootState :=
  { bootFiles := ["vmlinuz", "initrd.img-6.1.0-amd64"],
    targetParentExists := true, targetExists := true,
    targetSubdirs := ["6.1.0-amd64"], targetFiles := [],
    versionFiles := [] }

/-- C10: `bootStC10` satisfies the exactly-one-kernel-image invariant,
yet `setup_boot` dies with the unhandled `ValueError` raised by
`item.split("-", 1)` during version extraction — before relocating
anything (no version-keyed file is produced) and without any
classified failure. -/
theorem c10_separatorless_kernel_valueerror :
    bootStC10.bootFiles.countP isVmlinuzName = 1 ∧
    setupBoot bootStC10 = .error (.valueFail, bootStC10) ∧
    bootStC10.versionFiles = [] := by
  decide

/-- A boot directory with zero kernel images, one symbol-map file, and
a not-yet-existing target directory. -/
def bootStC2 : BootState :=
  { bootFiles := ["System.map-6.1.0-amd64"],
    targetParentExists := true, targetExists := false,
    targetSubdirs := [], targetFiles := [], versionFiles := [] }

/-- C2: on `bootStC2` (zero kernel-image entries) `setup_boot` does
fail on the kernel-count assertion, but at the moment the failure is
raised the filesystem has already been mutated: the target directory
has been created (`targetExists` flipped) and the symbol-map entry has
been moved out of the boot directory into the target. -/
theorem c2_counterexample :
    bootStC2.bootFiles.countP isVmlinuzName = 0 ∧
    setupBoot bootStC2 = .error (.assertFail,
      { bootFiles := [], targetParentExists := true, targetExists := true,
        targetSubdirs := [], targetFiles := ["System.map-6.1.0-amd64"],
        versionFiles := [] }) ∧
    ¬ bootStC2.targetExists = true ∧
    ¬ bootStC2.bootFiles = [] := by
  decide

/-- A boot directory with exactly one kernel image and one initrd,
whose version subdirectory does not yet exist under the target. -/
def bootStC3 : BootState :=
  { bootFiles := ["vmlinuz-6.1.0-amd64", "initrd.img-6.1.0-amd64"],
    targetParentExists := true, targetExists := true,
    targetSubdirs := [], targetFiles := [], versionFiles := [] }

/-- C3: on `bootStC3` (exactly one kernel-image entry and exactly one
initrd entry) `setup_boot` does not succeed: the stage never creates
the version-named subdirectory — the `os.mkdir` at line 300 creates
only the target directory itself — so the kernel rename into
`<target>/<version>/vmlinuz` fails and the stage exits
(`sys.exit(1)`), producing nothing. -/
theorem c3_counterexample :
    bootStC3.bootFiles.countP isVmlinuzName = 1 ∧
    bootStC3.bootFiles.countP isInitrdName = 1 ∧
    setupBoot bootStC3 = .error (.exitFail, bootStC3) := by
  decide

/-! ### Invariants of the scan loop -/

theorem mkdirTarget_bootFiles (st : BootState) :
    (mkdirTarget st).bootFiles = st.bootFiles := by
  unfold mkdirTarget
  split <;> rfl

theorem mkdirTarget_versionFiles (st : BootState) :
    (mkdirTarget st).versionFiles = st.versionFiles := by
  unfold mkdirTarget
  split <;> rfl

theorem mkdirTarget_targetSubdirs (st : BootState) :
    (mkdirTarget st).targetSubdirs = st.targetSubdirs := by
  unfold mkdirTarget
  split <;> rfl

theorem mkdirTarget_targetExists (st : BootState)
    (h : st.targetParentExists = true) :
    (mkdirTarget st).targetExists = true := by
  unfold mkdirTarget
  rw [if_pos h]

/-- What the scan loop never changes: target bookkeeping and
version-keyed files; boot entries other than `System.map*` files
remain, and the listing stays duplicate-free. -/
def scanPreserved (st st' : BootState) : Prop :=
  st'.versionFiles = st.versionFiles ∧
  st'.targetParentExists = st.targetParentExists ∧
  st'.targetExists = st.targetExists ∧
  st'.targetSubdirs = st.targetSubdirs ∧
  (∀ x, isSysmapName x = false → (x ∈ st'.bootFiles ↔ x ∈ st.bootFiles)) ∧
  (st.bootFiles.Nodup → st'.bootFiles.Nodup)

theorem scanPreserved_refl (st : BootState) : scanPreserved st st :=
  ⟨rfl, rfl, rfl, rfl, fun _ _ => Iff.rfl, id⟩

theorem scanPreserved_trans {a b c : BootState}
    (h1 : scanPreserved a b) (h2 : scanPreserved b c) : scanPreserved a c :=
  ⟨h2.1.trans h1.1, h2.2.1.trans h1.2.1, h2.2.2.1.trans h1.2.2.1,
   h2.2.2.2.1.trans h1.2.2.2.1,
   fun x hx => (h2.2.2.2.2.1 x hx).trans (h1.2.2.2.2.1 x hx),
   fun hn => h2.2.2.2.2.2 (h1.2.2.2.2.2 hn)⟩

/-- Moving a `System.map*` entry preserves the scan invariant. -/
theorem scanPreserved_sysmap_move (st : BootState) (item : String)
    (hsm : isSysmapName item = true) :
    scanPreserved st
      { st with bootFiles := st.bootFiles.erase item,
                targetFiles := item :: st.targetFiles } := by
  refine ⟨rfl, rfl, rfl, rfl, ?_, ?_⟩
  · intro x hx
    have hne : x ≠ item := by
      intro he
      rw [he, hsm] at hx
      cases hx
    exact List.mem_erase_of_ne hne
  · intro hn
    exact hn.erase item

/-- The state carried by a scan outcome (both the success state and
the state at the moment of failure). -/
def scanState : Except (BootErr × BootState) (BootAcc × BootState) → BootState
  | .ok (_, st) => st
  | .error (_, st) => st

/-- A single scan step preserves `scanPreserved`, whether it succeeds
or fails. -/
theorem bootStep_preserved (item : String) (acc : BootAcc) (st : BootState) :
    scanPreserved st (scanState (bootStep item acc st)) := by
  unfold bootStep
  split_ifs with hv hvs hi his hd hds hsm hte
  · exact scanPreserved_refl st
  · cases hsep : afterFirstSep '-' item.data with
    | none => exact scanPreserved_refl st
    | some v => exact scanPreserved_refl st
  · exact scanPreserved_refl st
  · exact scanPreserved_refl st
  · exact scanPreserved_refl st
  · exact scanPreserved_refl st
  · exact scanPreserved_sysmap_move st item hsm
  · exact scanPreserved_refl st
  · exact scanPreserved_refl st

/-- The scan loop preserves `scanPreserved` whether it succeeds or
fails. -/
theorem bootScan_preserved (items : List String) :
    ∀ (acc : BootAcc) (st : BootState),
      scanPreserved st (scanState (bootScan items acc st)) := by
  induction items with
  | nil => intro acc st; exact scanPreserved_refl st
  | cons item rest ih =>
    intro acc st
    show scanPreserved st (scanState
      (match bootStep item acc st with
       | .error e => .error e
       | .ok (acc2, st2) => bootScan rest acc2 st2))
    cases hstep : bootStep item acc st with
    | error e =>
      have hp := bootStep_preserved item acc st
      rw [hstep] at hp
      exact hp
    | ok accst =>
      obtain ⟨acc2, st2⟩ := accst
      have hp := bootStep_preserved item acc st
      rw [hstep] at hp
      exact scanPreserved_trans hp (ih acc2 st2)

theorem boolConflict {b : Bool} (h1 : b = true) (h2 : b = false) : False := by
  rw [h1] at h2
  exact Bool.noConfusion h2

theorem bool_eq_false_of_not {b : Bool} (h : ¬ b = true) : b = false := by
  cases hb : b with
  | false => rfl
  | true => exact absurd hb h

theorem option_eq_none_of_not_isSome {α : Type} {o : Option α}
    (h : ¬ o.isSome = true) : o = none := by
  cases ho : o with
  | none => rfl
  | some a => exact absurd (by rw [ho]; rfl) h

/-- A failing scan step fails at the state it was given, with an
assertion failure — or the `ValueError` on a separator-less kernel
name. -/
theorem bootStep_error (item : String) (acc : BootAcc) (st : BootState)
    (e : BootErr) (st' : BootState)
    (h : bootStep item acc st = .error (e, st')) :
    st' = st ∧ (e = .assertFail ∨
      (e = .valueFail ∧ isVmlinuzName item = true ∧
        afterFirstSep '-' item.data = none)) := by
  unfold bootStep at h
  by_cases hv : isVmlinuzName item = true
  · rw [if_pos hv] at h
    by_cases hvs : acc.vmlinuz.isSome = true
    · rw [if_pos hvs] at h
      simp only [Except.error.injEq, Prod.mk.injEq] at h
      exact ⟨h.2.symm, Or.inl h.1.symm⟩
    · rw [if_neg hvs] at h
      cases hsep : afterFirstSep '-' item.data with
      | none =>
        rw [hsep] at h
        simp only [Except.error.injEq, Prod.mk.injEq] at h
        exact ⟨h.2.symm, Or.inr ⟨h.1.symm, hv, rfl⟩⟩
      | some v => rw [hsep] at h; simp at h
  · rw [if_neg hv] at h
    by_cases hi : isInitrdName item = true
    · rw [if_pos hi] at h
      by_cases his : acc.initrd.isSome = true
      · rw [if_pos his] at h
        simp only [Except.error.injEq, Prod.mk.injEq] at h
        exact ⟨h.2.symm, Or.inl h.1.symm⟩
      · rw [if_neg his] at h; simp at h
    · rw [if_neg hi] at h
      by_cases hd : isDtbsName item = true
      · rw [if_pos hd] at h
        by_cases hds : acc.dtbs.isSome = true
        · rw [if_pos hds] at h
          simp only [Except.error.injEq, Prod.mk.injEq] at h
          exact ⟨h.2.symm, Or.inl h.1.symm⟩
        · rw [if_neg hds] at h; simp at h
      · rw [if_neg hd] at h
        by_cases hsm : isSysmapName item = true
        · rw [if_pos hsm] at h
          by_cases hte : st.targetExists = true
          · rw [if_pos hte] at h; simp at h
          · rw [if_neg hte] at h; simp at h
        · rw [if_neg hsm] at h; simp at h

/-- How a successful scan step transforms the kernel and initrd
accumulators. -/
theorem bootStep_ok_fields (item : String) (acc : BootAcc) (st : BootState)
    (acc2 : BootAcc) (st2 : BootState)
    (h : bootStep item acc st = .ok (acc2, st2)) :
    (isVmlinuzName item = false →
      acc2.vmlinuz = acc.vmlinuz ∧ acc2.version = acc.version) ∧
    (isVmlinuzName item = true →
      acc.vmlinuz = none ∧ acc2.vmlinuz = some item ∧
      ∃ v, afterFirstSep '-' item.data = some v ∧ acc2.version = some ⟨v⟩) ∧
    ((isVmlinuzName item = true ∨ isInitrdName item = false) →
      acc2.initrd = acc.initrd) ∧
    (isVmlinuzName item = false → isInitrdName item = true →
      acc.initrd = none ∧ acc2.initrd = some item) := by
  unfold bootStep at h
  by_cases hv : isVmlinuzName item = true
  · rw [if_pos hv] at h
    by_cases hvs : acc.vmlinuz.isSome = true
    · rw [if_pos hvs] at h; simp at h
    · rw [if_neg hvs] at h
      have hnone : acc.vmlinuz = none := option_eq_none_of_not_isSome hvs
      cases hsep : afterFirstSep '-' item.data with
      | none => rw [hsep] at h; simp at h
      | some v =>
        rw [hsep] at h
        simp only [Except.ok.injEq, Prod.mk.injEq] at h
        obtain ⟨h1, _⟩ := h
        subst h1
        refine ⟨fun hc => absurd (boolConflict hv hc) id,
                fun _ => ⟨hnone, rfl, v, rfl, rfl⟩,
                fun _ => rfl,
                fun hc _ => absurd (boolConflict hv hc) id⟩
  · rw [if_neg hv] at h
    have hvf : isVmlinuzName item = false := bool_eq_false_of_not hv
    by_cases hi : isInitrdName item = true
    · rw [if_pos hi] at h
      by_cases his : acc.initrd.isSome = true
      · rw [if_pos his] at h; simp at h
      · rw [if_neg his] at h
        have hinone : acc.initrd = none := option_eq_none_of_not_isSome his
        simp only [Except.ok.injEq, Prod.mk.injEq] at h
        obtain ⟨h1, _⟩ := h
        subst h1
        refine ⟨fun _ => ⟨rfl, rfl⟩,
                fun hc => absurd (boolConflict hc hvf) id,
                fun hor => ?_,
                fun _ _ => ⟨hinone, rfl⟩⟩
        rcases hor with hc | hc
        · exact absurd (boolConflict hc hvf) id
        · exact absurd (boolConflict hi hc) id
    · have hif : isInitrdName item = false := bool_eq_false_of_not hi
      rw [if_neg hi] at h
      have hrest : acc2.vmlinuz = acc.vmlinuz ∧ acc2.version = acc.version ∧
          acc2.initrd = acc.initrd := by
        by_cases hd : isDtbsName item = true
        · rw [if_pos hd] at h
          by_cases hds : acc.dtbs.isSome = true
          · rw [if_pos hds] at h; simp at h
          · rw [if_neg hds] at h
            simp only [Except.ok.injEq, Prod.mk.injEq] at h
            rw [← h.1]
            exact ⟨rfl, rfl, rfl⟩
        · rw [if_neg hd] at h
          by_cases hsm : isSysmapName item = true
          · rw [if_pos hsm] at h
            by_cases hte : st.targetExists = true
            · rw [if_pos hte] at h
              simp only [Except.ok.injEq, Prod.mk.injEq] at h
              rw [← h.1]
              exact ⟨rfl, rfl, rfl⟩
            · rw [if_neg hte] at h
              simp only [Except.ok.injEq, Prod.mk.injEq] at h
              rw [← h.1]
              exact ⟨rfl, rfl, rfl⟩
          · rw [if_neg hsm] at h
            simp only [Except.ok.injEq, Prod.mk.injEq] at h
            rw [← h.1]
            exact ⟨rfl, rfl, rfl⟩
      exact ⟨fun _ => ⟨hrest.1, hrest.2.1⟩,
             fun hc => absurd (boolConflict hc hvf) id,
             fun _ => hrest.2.2,
             fun _ hc => absurd (boolConflict hc hif) id⟩

/-- A string matching a one-character-headed pattern starts with that
character. -/
theorem strStartsWith_head (x p : String) (c : Char) (cs : List Char)
    (hp : p.data = c :: cs) (h : strStartsWith x p = true) :
    ∃ ds, x.data = c :: ds := by
  unfold strStartsWith at h
  rw [hp] at h
  cases hx : x.data with
  | nil => rw [hx] at h; simp [List.isPrefixOf] at h
  | cons d ds =>
    rw [hx] at h
    simp only [List.isPrefixOf, Bool.and_eq_true, beq_iff_eq] at h
    exact ⟨ds, by rw [h.1]⟩

/-- A string starting with one character does not start with a pattern
headed by a different character. -/
theorem strStartsWith_false_of_head (x p : String) (c d : Char)
    (ds pcs : List Char) (hx : x.data = d :: ds) (hp : p.data = c :: pcs)
    (hne : (c == d) = false) :
    strStartsWith x p = false := by
  unfold strStartsWith
  rw [hx, hp]
  simp [List.isPrefixOf, hne]

theorem not_initrd_of_vml (x : String) (h : isVmlinuzName x = true) :
    isInitrdName x = false := by
  obtain ⟨ds, hx⟩ := strStartsWith_head x "vmlinuz" 'v' "mlinuz".data
    (by decide) h
  unfold isInitrdName
  rw [strStartsWith_false_of_head x "initrd.img" 'i' 'v' ds "nitrd.img".data
      hx (by decide) (by decide),
    strStartsWith_false_of_head x "initramfs" 'i' 'v' ds "nitramfs".data
      hx (by decide) (by decide)]
  rfl

theorem not_dtbs_of_vml (x : String) (h : isVmlinuzName x = true) :
    isDtbsName x = false := by
  obtain ⟨ds, hx⟩ := strStartsWith_head x "vmlinuz" 'v' "mlinuz".data
    (by decide) h
  exact strStartsWith_false_of_head x "dtbs" 'd' 'v' ds "tbs".data
    hx (by decide) (by decide)

theorem initrd_head (x : String) (h : isInitrdName x = true) :
    ∃ ds, x.data = 'i' :: ds := by
  unfold isInitrdName at h
  rw [Bool.or_eq_true] at h
  rcases h with h | h
  · exact strStartsWith_head x "initrd.img" 'i' "nitrd.img".data
      (by decide) h
  · exact strStartsWith_head x "initramfs" 'i' "nitramfs".data
      (by decide) h

theorem not_dtbs_of_initrd (x : String) (h : isInitrdName x = true) :
    isDtbsName x = false := by
  obtain ⟨ds, hx⟩ := initrd_head x h
  exact strStartsWith_false_of_head x "dtbs" 'd' 'i' ds "tbs".data
    hx (by decide) (by decide)

theorem one_le_countP {α : Type} (p : α → Bool) (x : α) (hpx : p x = true) :
    ∀ l : List α, x ∈ l → 1 ≤ l.countP p := by
  intro l
  induction l with
  | nil => intro hx; cases hx
  | cons a tl ih =>
    intro hx
    rcases List.mem_cons.mp hx with rfl | hx'
    · rw [List.countP_cons_of_pos _ _ hpx]
      omega
    · rw [List.countP_cons]
      have := ih hx'
      omega

theorem two_le_countP {α : Type} (p : α → Bool) (x k : α)
    (hne : ¬ x = k) (hpx : p x = true) (hpk : p k = true) :
    ∀ l : List α, x ∈ l → k ∈ l → 2 ≤ l.countP p := by
  intro l
  induction l with
  | nil => intro hx _; cases hx
  | cons a tl ih =>
    intro hx hk
    rcases List.mem_cons.mp hx with rfl | hx'
    · rcases List.mem_cons.mp hk with rfl | hk'
      · exact absurd rfl hne
      · rw [List.countP_cons_of_pos _ _ hpx]
        have := one_le_countP p k hpk tl hk'
        omega
    · rcases List.mem_cons.mp hk with rfl | hk'
      · rw [List.countP_cons_of_pos _ _ hpk]
        have := one_le_countP p x hpx tl hx'
        omega
      · rw [List.countP_cons]
        have := ih hx' hk'
        omega

/-- How a successful scan step transforms the device-tree-blob
accumulator. -/
theorem bootStep_ok_dtbs (item : String) (acc : BootAcc) (st : BootState)
    (acc2 : BootAcc) (st2 : BootState)
    (h : bootStep item acc st = .ok (acc2, st2)) :
    ((isVmlinuzName item = true ∨ isInitrdName item = true ∨
        isDtbsName item = false) → acc2.dtbs = acc.dtbs) ∧
    (isVmlinuzName item = false → isInitrdName item = false →
      isDtbsName item = true → acc.dtbs = none ∧ acc2.dtbs = some item) := by
  unfold bootStep at h
  by_cases hv : isVmlinuzName item = true
  · rw [if_pos hv] at h
    by_cases hvs : acc.vmlinuz.isSome = true
    · rw [if_pos hvs] at h; simp at h
    · rw [if_neg hvs] at h
      cases hsep : afterFirstSep '-' item.data with
      | none => rw [hsep] at h; simp at h
      | some v =>
        rw [hsep] at h
        simp only [Except.ok.injEq, Prod.mk.injEq] at h
        obtain ⟨h1, _⟩ := h
        subst h1
        exact ⟨fun _ => rfl, fun hc _ _ => absurd (boolConflict hv hc) id⟩
  · have hvf : isVmlinuzName item = false := bool_eq_false_of_not hv
    rw [if_neg hv] at h
    by_cases hi : isInitrdName item = true
    · rw [if_pos hi] at h
      by_cases his : acc.initrd.isSome = true
      · rw [if_pos his] at h; simp at h
      · rw [if_neg his] at h
        simp only [Except.ok.injEq, Prod.mk.injEq] at h
        obtain ⟨h1, _⟩ := h
        subst h1
        exact ⟨fun _ => rfl, fun _ hc _ => absurd (boolConflict hi hc) id⟩
    · have hif : isInitrdName item = false := bool_eq_false_of_not hi
      rw [if_neg hi] at h
      by_cases hd : isDtbsName item = true
      · rw [if_pos hd] at h
        by_cases hds : acc.dtbs.isSome = true
        · rw [if_pos hds] at h; simp at h
        · rw [if_neg hds] at h
          have hdnone : acc.dtbs = none := option_eq_none_of_not_isSome hds
          simp only [Except.ok.injEq, Prod.mk.injEq] at h
          obtain ⟨h1, _⟩ := h
          subst h1
          refine ⟨fun hor => ?_, fun _ _ _ => ⟨hdnone, rfl⟩⟩
          rcases hor with hc | hc | hc
          · exact absurd (boolConflict hc hvf) id
          · exact absurd (boolConflict hc hif) id
          · exact absurd (boolConflict hd hc) id
      · have hdf : isDtbsName item = false := bool_eq_false_of_not hd
        rw [if_neg hd] at h
        have hacc : acc2.dtbs = acc.dtbs := by
          by_cases hsm : isSysmapName item = true
          · rw [if_pos hsm] at h
            by_cases hte : st.targetExists = true
            · rw [if_pos hte] at h
              simp only [Except.ok.injEq, Prod.mk.injEq] at h
              rw [← h.1]
            · rw [if_neg hte] at h
              simp only [Except.ok.injEq, Prod.mk.injEq] at h
              rw [← h.1]
          · rw [if_neg hsm] at h
            simp only [Except.ok.injEq, Prod.mk.injEq] at h
            rw [← h.1]
        exact ⟨fun _ => hacc, fun _ _ hc => absurd (boolConflict hc hdf) id⟩

/-- A scan step succeeds when no assertion would fire: at most one of
each classified kind has been seen, and a kernel entry carries a
separator. -/
theorem bootStep_ok_of (item : String) (acc : BootAcc) (st : BootState)
    (h1 : isVmlinuzName item = true →
      acc.vmlinuz = none ∧ ¬ afterFirstSep '-' item.data = none)
    (h2 : isVmlinuzName item = false → isInitrdName item = true →
      acc.initrd = none)
    (h3 : isVmlinuzName item = false → isInitrdName item = false →
      isDtbsName item = true → acc.dtbs = none) :
    ∃ acc2 st2, bootStep item acc st = .ok (acc2, st2) := by
  unfold bootStep
  by_cases hv : isVmlinuzName item = true
  · obtain ⟨hn, hs⟩ := h1 hv
    rw [if_pos hv, if_neg (by rw [hn]; simp)]
    cases hsep : afterFirstSep '-' item.data with
    | none => exact absurd hsep hs
    | some v => exact ⟨_, _, rfl⟩
  · have hvf : isVmlinuzName item = false := bool_eq_false_of_not hv
    rw [if_neg hv]
    by_cases hi : isInitrdName item = true
    · rw [if_pos hi, if_neg (by rw [h2 hvf hi]; simp)]
      exact ⟨_, _, rfl⟩
    · have hif : isInitrdName item = false := bool_eq_false_of_not hi
      rw [if_neg hi]
      by_cases hd : isDtbsName item = true
      · rw [if_pos hd, if_neg (by rw [h3 hvf hif hd]; simp)]
        exact ⟨_, _, rfl⟩
      · rw [if_neg hd]
        by_cases hsm : isSysmapName item = true
        · rw [if_pos hsm]
          by_cases hte : st.targetExists = true
          · rw [if_pos hte]; exact ⟨_, _, rfl⟩
          · rw [if_neg hte]; exact ⟨_, _, rfl⟩
        · rw [if_neg hsm]; exact ⟨_, _, rfl⟩

theorem bootScan_cons (item : String) (rest : List String) (acc : BootAcc)
    (st : BootState) :
    bootScan (item :: rest) acc st =
      match bootStep item acc st with
      | .error e => .error e
      | .ok (acc2, st2) => bootScan rest acc2 st2 := rfl

/-- A scan failure is an assertion failure, except for the
`ValueError` raised on a kernel entry without a separator. -/
theorem bootScan_error_kind (items : List String) :
    ∀ (acc : BootAcc) (st : BootState) (e : BootErr) (st' : BootState),
      bootScan items acc st = .error (e, st') →
      e = .assertFail ∨
        (e = .valueFail ∧ ∃ x, x ∈ items ∧ isVmlinuzName x = true ∧
          afterFirstSep '-' x.data = none) := by
  induction items with
  | nil =>
    intro acc st e st' h
    simp [bootScan] at h
  | cons item rest ih =>
    intro acc st e st' h
    rw [bootScan_cons] at h
    cases hstep : bootStep item acc st with
    | error ep =>
      obtain ⟨e0, st0⟩ := ep
      rw [hstep] at h
      simp only [Except.error.injEq, Prod.mk.injEq] at h
      obtain ⟨he, _⟩ := h
      subst he
      rcases (bootStep_error item acc st e0 st0 hstep).2 with h1 | ⟨h1, h2, h3⟩
      · exact Or.inl h1
      · exact Or.inr ⟨h1, item, List.mem_cons_self _ _, h2, h3⟩
    | ok accst =>
      obtain ⟨acc2, st2⟩ := accst
      rw [hstep] at h
      have h' : bootScan rest acc2 st2 = .error (e, st') := h
      rcases ih _ _ _ _ h' with h1 | ⟨h1, x, hx, hxv, hxs⟩
      · exact Or.inl h1
      · exact Or.inr ⟨h1, x, List.mem_cons_of_mem _ hx, hxv, hxs⟩

/-- Once a kernel entry has been recorded, a successful scan saw no
further kernel entry and left the record unchanged. -/
theorem bootScan_ok_vmlinuz_isSome (items : List String) :
    ∀ (acc : BootAcc) (st : BootState) (acc' : BootAcc) (st' : BootState),
      bootScan items acc st = .ok (acc', st') →
      acc.vmlinuz.isSome = true →
      items.countP isVmlinuzName = 0 ∧ acc'.vmlinuz = acc.vmlinuz ∧
        acc'.version = acc.version := by
  induction items with
  | nil =>
    intro acc st acc' st' h hsome
    simp only [bootScan, Except.ok.injEq, Prod.mk.injEq] at h
    exact ⟨rfl, by rw [h.1], by rw [h.1]⟩
  | cons item rest ih =>
    intro acc st acc' st' h hsome
    rw [bootScan_cons] at h
    cases hstep : bootStep item acc st with
    | error ep => rw [hstep] at h; simp at h
    | ok accst =>
      obtain ⟨acc2, st2⟩ := accst
      rw [hstep] at h
      have h' : bootScan rest acc2 st2 = .ok (acc', st') := h
      have hf := bootStep_ok_fields item acc st acc2 st2 hstep
      by_cases hv : isVmlinuzName item = true
      · obtain ⟨hn, _, _⟩ := hf.2.1 hv
        rw [hn] at hsome
        cases hsome
      · have hvf : isVmlinuzName item = false := bool_eq_false_of_not hv
        obtain ⟨ha, hver⟩ := hf.1 hvf
        obtain ⟨hc, ha', hver'⟩ := ih _ _ _ _ h' (by rw [ha]; exact hsome)
        exact ⟨by rw [List.countP_cons_of_neg _ _ hv, hc],
               by rw [ha', ha], by rw [hver', hver]⟩

/-- A successful scan over a listing without kernel entries records no
kernel. -/
theorem bootScan_ok_vmlinuz_none (items : List String) :
    ∀ (acc : BootAcc) (st : BootState) (acc' : BootAcc) (st' : BootState),
      bootScan items acc st = .ok (acc', st') →
      acc.vmlinuz = none →
      items.countP isVmlinuzName = 0 →
      acc'.vmlinuz = none := by
  induction items with
  | nil =>
    intro acc st acc' st' h hnone _
    simp only [bootScan, Except.ok.injEq, Prod.mk.injEq] at h
    rw [← h.1]
    exact hnone
  | cons item rest ih =>
    intro acc st acc' st' h hnone hcount
    rw [bootScan_cons] at h
    cases hstep : bootStep item acc st with
    | error ep => rw [hstep] at h; simp at h
    | ok accst =>
      obtain ⟨acc2, st2⟩ := accst
      rw [hstep] at h
      have h' : bootScan rest acc2 st2 = .ok (acc', st') := h
      have hf := bootStep_ok_fields item acc st acc2 st2 hstep
      by_cases hv : isVmlinuzName item = true
      · rw [List.countP_cons_of_pos _ _ hv] at hcount
        cases hcount
      · have hvf : isVmlinuzName item = false := bool_eq_false_of_not hv
        rw [List.countP_cons_of_neg _ _ hv] at hcount
        exact ih _ _ _ _ h' (by rw [(hf.1 hvf).1]; exact hnone) hcount

/-- A successful scan that started with no kernel recorded saw at most
one kernel entry. -/
theorem bootScan_ok_count_le_one (items : List String) :
    ∀ (acc : BootAcc) (st : BootState) (acc' : BootAcc) (st' : BootState),
      bootScan items acc st = .ok (acc', st') →
      acc.vmlinuz = none →
      items.countP isVmlinuzName ≤ 1 := by
  induction items with
  | nil =>
    intro acc st acc' st' _ _
    exact Nat.zero_le 1
  | cons item rest ih =>
    intro acc st acc' st' h hnone
    rw [bootScan_cons] at h
    cases hstep : bootStep item acc st with
    | error ep => rw [hstep] at h; simp at h
    | ok accst =>
      obtain ⟨acc2, st2⟩ := accst
      rw [hstep] at h
      have h' : bootScan rest acc2 st2 = .ok (acc', st') := h
      have hf := bootStep_ok_fields item acc st acc2 st2 hstep
      by_cases hv : isVmlinuzName item = true
      · obtain ⟨_, ha2, _⟩ := hf.2.1 hv
        have h0 := (bootScan_ok_vmlinuz_isSome rest _ _ _ _ h'
          (by rw [ha2]; rfl)).1
        rw [List.countP_cons_of_pos _ _ hv, h0]
      · have hvf : isVmlinuzName item = false := bool_eq_false_of_not hv
        rw [List.countP_cons_of_neg _ _ hv]
        exact ih _ _ _ _ h' (by rw [(hf.1 hvf).1]; exact hnone)

/-- Once an initrd entry has been recorded, a successful scan saw no
further initrd entry and left the record unchanged. -/
theorem bootScan_ok_initrd_isSome (items : List String) :
    ∀ (acc : BootAcc) (st : BootState) (acc' : BootAcc) (st' : BootState),
      bootScan items acc st = .ok (acc', st') →
      acc.initrd.isSome = true →
      items.countP isInitrdName = 0 ∧ acc'.initrd = acc.initrd := by
  induction items with
  | nil =>
    intro acc st acc' st' h _
    simp only [bootScan, Except.ok.injEq, Prod.mk.injEq] at h
    exact ⟨rfl, by rw [h.1]⟩
  | cons item rest ih =>
    intro acc st acc' st' h hsome
    rw [bootScan_cons] at h
    cases hstep : bootStep item acc st with
    | error ep => rw [hstep] at h; simp at h
    | ok accst =>
      obtain ⟨acc2, st2⟩ := accst
      rw [hstep] at h
      have h' : bootScan rest acc2 st2 = .ok (acc', st') := h
      have hf := bootStep_ok_fields item acc st acc2 st2 hstep
      by_cases hv : isVmlinuzName item = true
      · have hitem : isInitrdName item = false := not_initrd_of_vml item hv
        have hacc2 : acc2.initrd = acc.initrd := hf.2.2.1 (Or.inl hv)
        obtain ⟨hc, ha⟩ := ih _ _ _ _ h' (by rw [hacc2]; exact hsome)
        refine ⟨?_, by rw [ha, hacc2]⟩
        rw [List.countP_cons_of_neg _ _ (fun hcc => boolConflict hcc hitem), hc]
      · have hvf := bool_eq_false_of_not hv
        by_cases hi : isInitrdName item = true
        · obtain ⟨hin, _⟩ := hf.2.2.2 hvf hi
          rw [hin] at hsome
          cases hsome
        · have hif := bool_eq_false_of_not hi
          have hacc2 : acc2.initrd = acc.initrd := hf.2.2.1 (Or.inr hif)
          obtain ⟨hc, ha⟩ := ih _ _ _ _ h' (by rw [hacc2]; exact hsome)
          exact ⟨by rw [List.countP_cons_of_neg _ _ hi, hc], by rw [ha, hacc2]⟩

/-- A successful scan starting with no recorded kernel records the
kernel entry it meets, along with the version string after the first
separator of its name. -/
theorem bootScan_ok_captures_vmlinuz (items : List String) :
    ∀ (acc : BootAcc) (st : BootState) (acc' : BootAcc) (st' : BootState)
      (k : String),
      bootScan items acc st = .ok (acc', st') →
      acc.vmlinuz = none →
      k ∈ items → isVmlinuzName k = true →
      acc'.vmlinuz = some k ∧
        ∃ v, afterFirstSep '-' k.data = some v ∧ acc'.version = some ⟨v⟩ := by
  induction items with
  | nil =>
    intro acc st acc' st' k _ _ hkmem _
    cases hkmem
  | cons item rest ih =>
    intro acc st acc' st' k h hnone hkmem hk
    rw [bootScan_cons] at h
    cases hstep : bootStep item acc st with
    | error ep => rw [hstep] at h; simp at h
    | ok accst =>
      obtain ⟨acc2, st2⟩ := accst
      rw [hstep] at h
      have h' : bootScan rest acc2 st2 = .ok (acc', st') := h
      have hf := bootStep_ok_fields item acc st acc2 st2 hstep
      by_cases hv : isVmlinuzName item = true
      · obtain ⟨_, ha2, v, hsep, hver⟩ := hf.2.1 hv
        obtain ⟨hc0, ha', hver'⟩ := bootScan_ok_vmlinuz_isSome rest _ _ _ _ h'
          (by rw [ha2]; rfl)
        rcases List.mem_cons.mp hkmem with rfl | hkrest
        · exact ⟨by rw [ha', ha2], v, hsep, by rw [hver', hver]⟩
        · exact absurd hk (List.countP_eq_zero.mp hc0 k hkrest)
      · have hvf := bool_eq_false_of_not hv
        have hkne : ¬ k = item := fun he => boolConflict hk (he ▸ hvf)
        have hkrest : k ∈ rest := by
          rcases List.mem_cons.mp hkmem with he | hr
          · exact absurd he hkne
          · exact hr
        exact ih _ _ _ _ k h' (by rw [(hf.1 hvf).1]; exact hnone) hkrest hk

/-- A successful scan starting with no recorded initrd records the
initrd entry it meets. -/
theorem bootScan_ok_captures_initrd (items : List String) :
    ∀ (acc : BootAcc) (st : BootState) (acc' : BootAcc) (st' : BootState)
      (i : String),
      bootScan items acc st = .ok (acc', st') →
      acc.initrd = none →
      i ∈ items → isInitrdName i = true →
      acc'.initrd = some i := by
  induction items with
  | nil =>
    intro acc st acc' st' i _ _ himem _
    cases himem
  | cons item rest ih =>
    intro acc st acc' st' i h hnone himem hi
    rw [bootScan_cons] at h
    cases hstep : bootStep item acc st with
    | error ep => rw [hstep] at h; simp at h
    | ok accst =>
      obtain ⟨acc2, st2⟩ := accst
      rw [hstep] at h
      have h' : bootScan rest acc2 st2 = .ok (acc', st') := h
      have hf := bootStep_ok_fields item acc st acc2 st2 hstep
      by_cases hv : isVmlinuzName item = true
      · have hitem : isInitrdName item = false := not_initrd_of_vml item hv
        have hine : ¬ i = item := fun he => boolConflict hi (he ▸ hitem)
        have hirest : i ∈ rest := by
          rcases List.mem_cons.mp himem with he | hr
          · exact absurd he hine
          · exact hr
        exact ih _ _ _ _ i h'
          (by rw [hf.2.2.1 (Or.inl hv)]; exact hnone) hirest hi
      · have hvf := bool_eq_false_of_not hv
        by_cases hit : isInitrdName item = true
        · obtain ⟨_, ha2⟩ := hf.2.2.2 hvf hit
          obtain ⟨hc0, ha'⟩ := bootScan_ok_initrd_isSome rest _ _ _ _ h'
            (by rw [ha2]; rfl)
          rcases List.mem_cons.mp himem with rfl | hirest
          · rw [ha', ha2]
          · exact absurd hi (List.countP_eq_zero.mp hc0 i hirest)
        · have hif := bool_eq_false_of_not hit
          have hine : ¬ i = item := fun he => boolConflict hi (he ▸ hif)
          have hirest : i ∈ rest := by
            rcases List.mem_cons.mp himem with he | hr
            · exact absurd he hine
            · exact hr
          exact ih _ _ _ _ i h'
            (by rw [hf.2.2.1 (Or.inr hif)]; exact hnone) hirest hi

/-- The scan loop succeeds when each classified kind appears at most
once (counting an already-recorded one) and every kernel entry carries
a separator. -/
theorem bootScan_ok_total (items : List String) :
    ∀ (acc : BootAcc) (st : BootState),
      items.countP isVmlinuzName +
        (if acc.vmlinuz.isSome then 1 else 0) ≤ 1 →
      items.countP isInitrdName +
        (if acc.initrd.isSome then 1 else 0) ≤ 1 →
      items.countP isDtbsName +
        (if acc.dtbs.isSome then 1 else 0) ≤ 1 →
      (∀ x ∈ items, isVmlinuzName x = true →
        ¬ afterFirstSep '-' x.data = none) →
      ∃ acc' st', bootScan items acc st = .ok (acc', st') := by
  induction items with
  | nil =>
    intro acc st _ _ _ _
    exact ⟨acc, st, rfl⟩
  | cons item rest ih =>
    intro acc st hv1 hi1 hd1 hdash
    have hstep_ok : ∃ acc2 st2, bootStep item acc st = .ok (acc2, st2) := by
      apply bootStep_ok_of
      · intro hv
        refine ⟨?_, hdash item (List.mem_cons_self _ _) hv⟩
        have hcp := one_le_countP isVmlinuzName item hv _
          (List.mem_cons_self item rest)
        cases hacc : acc.vmlinuz with
        | none => rfl
        | some kk =>
          rw [hacc] at hv1
          have hv1x : (item :: rest).countP isVmlinuzName + 1 ≤ 1 := hv1
          exact absurd hv1x (by omega)
      · intro _ hi
        have hcp := one_le_countP isInitrdName item hi _
          (List.mem_cons_self item rest)
        cases hacc : acc.initrd with
        | none => rfl
        | some kk =>
          rw [hacc] at hi1
          have hi1x : (item :: rest).countP isInitrdName + 1 ≤ 1 := hi1
          exact absurd hi1x (by omega)
      · intro _ _ hd
        have hcp := one_le_countP isDtbsName item hd _
          (List.mem_cons_self item rest)
        cases hacc : acc.dtbs with
        | none => rfl
        | some kk =>
          rw [hacc] at hd1
          have hd1x : (item :: rest).countP isDtbsName + 1 ≤ 1 := hd1
          exact absurd hd1x (by omega)
    obtain ⟨acc2, st2, hstep⟩ := hstep_ok
    have hf := bootStep_ok_fields item acc st acc2 st2 hstep
    have hfd := bootStep_ok_dtbs item acc st acc2 st2 hstep
    have hdash' : ∀ x ∈ rest, isVmlinuzName x = true →
        ¬ afterFirstSep '-' x.data = none :=
      fun x hx => hdash x (List.mem_cons_of_mem _ hx)
    have hrec : ∃ acc' st', bootScan rest acc2 st2 = .ok (acc', st') := by
      apply ih acc2 st2 ?_ ?_ ?_ hdash'
      · by_cases hv : isVmlinuzName item = true
        · obtain ⟨hn, ha2, _⟩ := hf.2.1 hv
          rw [hn, List.countP_cons_of_pos _ _ hv] at hv1
          have hv1x : rest.countP isVmlinuzName + 1 + 0 ≤ 1 := hv1
          rw [ha2]
          show rest.countP isVmlinuzName + 1 ≤ 1
          omega
        · have hvf := bool_eq_false_of_not hv
          rw [List.countP_cons_of_neg _ _ hv] at hv1
          rw [(hf.1 hvf).1]
          exact hv1
      · by_cases hv : isVmlinuzName item = true
        · have hitem := not_initrd_of_vml item hv
          rw [List.countP_cons_of_neg _ _
            (fun hcc => boolConflict hcc hitem)] at hi1
          rw [hf.2.2.1 (Or.inl hv)]
          exact hi1
        · have hvf := bool_eq_false_of_not hv
          by_cases hi : isInitrdName item = true
          · obtain ⟨hin, ha2⟩ := hf.2.2.2 hvf hi
            rw [hin, List.countP_cons_of_pos _ _ hi] at hi1
            have hi1x : rest.countP isInitrdName + 1 + 0 ≤ 1 := hi1
            rw [ha2]
            show rest.countP isInitrdName + 1 ≤ 1
            omega
          · have hif := bool_eq_false_of_not hi
            rw [List.countP_cons_of_neg _ _ hi] at hi1
            rw [hf.2.2.1 (Or.inr hif)]
            exact hi1
      · by_cases hv : isVmlinuzName item = true
        · have hitem := not_dtbs_of_vml item hv
          rw [List.countP_cons_of_neg _ _
            (fun hcc => boolConflict hcc hitem)] at hd1
          rw [hfd.1 (Or.inl hv)]
          exact hd1
        · have hvf := bool_eq_false_of_not hv
          by_cases hi : isInitrdName item = true
          · have hitem := not_dtbs_of_initrd item hi
            rw [List.countP_cons_of_neg _ _
              (fun hcc => boolConflict hcc hitem)] at hd1
            rw [hfd.1 (Or.inr (Or.inl hi))]
            exact hd1
          · have hif := bool_eq_false_of_not hi
            by_cases hd : isDtbsName item = true
            · obtain ⟨hdn, ha2⟩ := hfd.2 hvf hif hd
              rw [hdn, List.countP_cons_of_pos _ _ hd] at hd1
              have hd1x : rest.countP isDtbsName + 1 + 0 ≤ 1 := hd1
              rw [ha2]
              show rest.countP isDtbsName + 1 ≤ 1
              omega
            · have hdf := bool_eq_false_of_not hd
              rw [List.countP_cons_of_neg _ _ hd] at hd1
              rw [hfd.1 (Or.inr (Or.inr hdf))]
              exact hd1
    obtain ⟨acc', st', hrec'⟩ := hrec
    refine ⟨acc', st', ?_⟩
    rw [bootScan_cons, hstep]
    exact hrec'

/-- C2 (amended): a boot directory with zero or two-or-more
kernel-image entries (each kernel entry containing a separator) makes
`setup_boot` fail with the assertion failure, and at the moment of
failure no kernel or initrd entry has been relocated — the
version-keyed file set is unchanged and every non-symbol-map boot
entry is still in the boot directory; the stage may however already
have created the target directory and moved symbol-map entries into
it. -/
theorem c2_boot_invariant_failure (st : BootState)
    (hcount : ¬ st.bootFiles.countP isVmlinuzName = 1)
    (hdash : ∀ x ∈ st.bootFiles, isVmlinuzName x = true →
      ¬ afterFirstSep '-' x.data = none) :
    ∃ st', setupBoot st = .error (.assertFail, st') ∧
      st'.versionFiles = st.versionFiles ∧
      (∀ x ∈ st.bootFiles, isSysmapName x = false → x ∈ st'.bootFiles) := by
  have hbf := mkdirTarget_bootFiles st
  have hvf := mkdirTarget_versionFiles st
  unfold setupBoot
  cases hscan : bootScan (mkdirTarget st).bootFiles ⟨none, none, none, none⟩
      (mkdirTarget st) with
  | error est =>
    obtain ⟨e, st1⟩ := est
    have hpres : scanPreserved (mkdirTarget st) st1 := by
      have hp := bootScan_preserved (mkdirTarget st).bootFiles
        ⟨none, none, none, none⟩ (mkdirTarget st)
      rw [hscan] at hp
      exact hp
    rcases bootScan_error_kind _ _ _ _ _ hscan with he | ⟨_, x, hx, hxv, hxs⟩
    · subst he
      refine ⟨st1, rfl, ?_, ?_⟩
      · rw [hpres.1, hvf]
      · intro x hmem hxs
        exact (hpres.2.2.2.2.1 x hxs).mpr (hbf ▸ hmem)
    · exact absurd hxs (hdash x (hbf ▸ hx) hxv)
  | ok accst =>
    obtain ⟨acc, st2⟩ := accst
    have hpres : scanPreserved (mkdirTarget st) st2 := by
      have hp := bootScan_preserved (mkdirTarget st).bootFiles
        ⟨none, none, none, none⟩ (mkdirTarget st)
      rw [hscan] at hp
      exact hp
    rcases Nat.lt_or_ge (st.bootFiles.countP isVmlinuzName) 1 with hlt | hge
    · have h0 : st.bootFiles.countP isVmlinuzName = 0 := Nat.lt_one_iff.mp hlt
      have hnone : acc.vmlinuz = none :=
        bootScan_ok_vmlinuz_none _ _ _ _ _ hscan rfl (by rw [hbf]; exact h0)
      refine ⟨st2, ?_, ?_, ?_⟩
      · show bootFinish acc st2 = .error (.assertFail, st2)
        unfold bootFinish
        rw [hnone]
      · rw [hpres.1, hvf]
      · intro x hmem hxs
        exact (hpres.2.2.2.2.1 x hxs).mpr (hbf ▸ hmem)
    · have hle : (mkdirTarget st).bootFiles.countP isVmlinuzName ≤ 1 :=
        bootScan_ok_count_le_one _ _ _ _ _ hscan rfl
      rw [hbf] at hle
      exact absurd (Nat.le_antisymm hle hge) hcount

/-- Witness for `c2_boot_invariant_failure` on `bootStC2`. -/
theorem c2_boot_invariant_failure_witness :
    ∃ st', setupBoot bootStC2 = .error (.assertFail, st') ∧
      st'.versionFiles = bootStC2.versionFiles ∧
      (∀ x ∈ bootStC2.bootFiles, isSysmapName x = false →
        x ∈ st'.bootFiles) :=
  c2_boot_invariant_failure bootStC2 (by decide) (by decide)

/-- A rename into an existing version subdirectory succeeds, removing
the source from the boot listing and adding the version-keyed file. -/
theorem renameIntoVersion_ok (st : BootState) (src v dst : String)
    (hte : st.targetExists = true) (hsub : v ∈ st.targetSubdirs)
    (hsrc : src ∈ st.bootFiles) :
    ∃ st', renameIntoVersion st src v dst = some st' ∧
      st'.bootFiles = st.bootFiles.erase src ∧
      st'.versionFiles = (v, dst) :: st.versionFiles ∧
      st'.targetExists = st.targetExists ∧
      st'.targetSubdirs = st.targetSubdirs := by
  have hdef : renameIntoVersion st src v dst =
      some { st with bootFiles := st.bootFiles.erase src,
                     versionFiles := (v, dst) :: st.versionFiles } := by
    unfold renameIntoVersion
    rw [if_pos ⟨hte, hsub, hsrc⟩]
  exact ⟨_, hdef, rfl, rfl, rfl, rfl⟩

/-- C3 (amended): on a boot directory with exactly one kernel-image
entry `k` (whose name contains a separator, version part `vc`) and
exactly one initrd entry `i`, at most one device-tree-blob entry, a
duplicate-free listing, an existing parent for the target directory
and — this the stage requires but never creates — an existing
version-named subdirectory under the target, `setup_boot` succeeds:
`<target>/<version>/vmlinuz` and `<target>/<version>/initramfs.img`
are produced and no renamed copies remain at the original
boot-directory locations.  The `os.mkdir` of the stage creates the
target directory itself idempotently, not the version
subdirectory. -/
theorem c3_boot_relocation (st : BootState) (k i : String) (vc : List Char)
    (hk : isVmlinuzName k = true) (hkmem : k ∈ st.bootFiles)
    (hksep : afterFirstSep '-' k.data = some vc)
    (hi : isInitrdName i = true) (himem : i ∈ st.bootFiles)
    (hvcount : st.bootFiles.countP isVmlinuzName = 1)
    (hicount : st.bootFiles.countP isInitrdName = 1)
    (hdcount : st.bootFiles.countP isDtbsName ≤ 1)
    (hparent : st.targetParentExists = true)
    (hsub : (⟨vc⟩ : String) ∈ st.targetSubdirs)
    (hnodup : st.bootFiles.Nodup)
    (hks : isSysmapName k = false) (his : isSysmapName i = false) :
    ∃ st', setupBoot st = .ok st' ∧
      ((⟨vc⟩ : String), "vmlinuz") ∈ st'.versionFiles ∧
      ((⟨vc⟩ : String), "initramfs.img") ∈ st'.versionFiles ∧
      ¬ k ∈ st'.bootFiles ∧ ¬ i ∈ st'.bootFiles := by
  have hbf := mkdirTarget_bootFiles st
  have hsubs := mkdirTarget_targetSubdirs st
  have hte1 := mkdirTarget_targetExists st hparent
  -- every kernel entry in the listing is k, so every kernel entry has
  -- a separator
  have hdash : ∀ x ∈ (mkdirTarget st).bootFiles, isVmlinuzName x = true →
      ¬ afterFirstSep '-' x.data = none := by
    intro x hx hxv hx0
    by_cases hxk : x = k
    · subst hxk
      rw [hksep] at hx0
      cases hx0
    · have h2 := two_le_countP isVmlinuzName x k hxk hxv hk st.bootFiles
        (hbf ▸ hx) hkmem
      omega
  -- the scan succeeds
  obtain ⟨acc, st2, hscan⟩ :=
    bootScan_ok_total (mkdirTarget st).bootFiles ⟨none, none, none, none⟩
      (mkdirTarget st)
      (by rw [hbf, hvcount]; exact Nat.le_refl 1)
      (by rw [hbf, hicount]; exact Nat.le_refl 1)
      (by rw [hbf]
          show st.bootFiles.countP isDtbsName + 0 ≤ 1
          omega)
      hdash
  have hkcap := bootScan_ok_captures_vmlinuz _ _ _ _ _ k hscan rfl
    (hbf ▸ hkmem) hk
  obtain ⟨hacck, v0, hsep0, haccv⟩ := hkcap
  have hv0 : v0 = vc := by
    rw [hksep] at hsep0
    exact (Option.some_inj.mp hsep0).symm
  rw [hv0] at haccv
  have hacci := bootScan_ok_captures_initrd _ _ _ _ _ i hscan rfl
    (hbf ▸ himem) hi
  have hpres : scanPreserved (mkdirTarget st) st2 := by
    have hp := bootScan_preserved (mkdirTarget st).bootFiles
      ⟨none, none, none, none⟩ (mkdirTarget st)
    rw [hscan] at hp
    exact hp
  have hte2 : st2.targetExists = true := by rw [hpres.2.2.1]; exact hte1
  have hsub2 : (⟨vc⟩ : String) ∈ st2.targetSubdirs := by
    rw [hpres.2.2.2.1, hsubs]; exact hsub
  have hk2 : k ∈ st2.bootFiles :=
    (hpres.2.2.2.2.1 k hks).mpr (hbf ▸ hkmem)
  have hi2 : i ∈ st2.bootFiles :=
    (hpres.2.2.2.2.1 i his).mpr (hbf ▸ himem)
  have hnodup2 : st2.bootFiles.Nodup :=
    hpres.2.2.2.2.2 (hbf ▸ hnodup)
  obtain ⟨st3, hren1, hst3b, hst3v, hst3te, hst3sub⟩ :=
    renameIntoVersion_ok st2 k ⟨vc⟩ "vmlinuz" hte2 hsub2 hk2
  have hik : ¬ i = k := fun he =>
    boolConflict hi (he ▸ not_initrd_of_vml k hk)
  have hi3 : i ∈ st3.bootFiles := by
    rw [hst3b]
    exact (List.mem_erase_of_ne hik).mpr hi2
  obtain ⟨st4, hren2, hst4b, hst4v, _, _⟩ :=
    renameIntoVersion_ok st3 i ⟨vc⟩ "initramfs.img"
      (by rw [hst3te]; exact hte2) (by rw [hst3sub]; exact hsub2) hi3
  refine ⟨st4, ?_, ?_, ?_, ?_, ?_⟩
  · unfold setupBoot
    rw [hscan]
    show bootFinish acc st2 = .ok st4
    unfold bootFinish
    rw [hacck, haccv]
    show renameKernel k ⟨vc⟩ acc st2 = .ok st4
    unfold renameKernel
    rw [hren1]
    show renameInitrd acc ⟨vc⟩ st3 = .ok st4
    unfold renameInitrd
    rw [hacci]
    show renameInitrdFile i ⟨vc⟩ st3 = .ok st4
    unfold renameInitrdFile
    rw [hren2]
  · rw [hst4v, hst3v]
    exact List.mem_cons_of_mem _ (List.mem_cons_self _ _)
  · rw [hst4v]
    exact List.mem_cons_self _ _
  · rw [hst4b, hst3b]
    intro hkin
    exact hnodup2.not_mem_erase (List.mem_of_mem_erase hkin)
  · rw [hst4b, hst3b]
    intro hiin
    exact (hnodup2.erase k).not_mem_erase hiin

/-- A boot directory on which `c3_boot_relocation` applies: one
separator-carrying kernel, one initrd, a symbol map, and the version
subdirectory present under the target. -/
def bootStC3w : BootState :=
  { bootFiles := ["System.map-6.1.0-amd64", "vmlinuz-6.1.0-amd64",
                  "initrd.img-6.1.0-amd64"],
    targetParentExists := true, targetExists := false,
    targetSubdirs := ["6.1.0-amd64"], targetFiles := [],
    versionFiles := [] }

/-- Witness for `c3_boot_relocation` on `bootStC3w`. -/
theorem c3_boot_relocation_witness :
    ∃ st', setupBoot bootStC3w = .ok st' ∧
      (("6.1.0-amd64" : String), "vmlinuz") ∈ st'.versionFiles ∧
      (("6.1.0-amd64" : String), "initramfs.img") ∈ st'.versionFiles ∧
      ¬ "vmlinuz-6.1.0-amd64" ∈ st'.bootFiles ∧
      ¬ "initrd.img-6.1.0-amd64" ∈ st'.bootFiles :=
  c3_boot_relocation bootStC3w "vmlinuz-6.1.0-amd64" "initrd.img-6.1.0-amd64"
    "6.1.0-amd64".data (by decide) (by decide) (by decide) (by decide)
    (by decide) (by decide) (by decide) (by decide) (by decide) (by decide)
    (by decide) (by decide) (by decide)
